import Mathlib

/-!
Verification of `export_issues.py` (a GitHub issue exporter) against its
natural-language specification.  The script is shallowly embedded: text is
`List Char`, Python dictionaries become structures with `Option` fields for
keys that may be absent, network requests become explicit environment
functions returning `Except`, and the exception-based control flow becomes
`Except` propagation.  Every definition mirrors the corresponding Python
function; source line numbers are given in the doc comments.
-/

/-- Text, modelled as a list of characters (Python `str`). -/
abbrev Str := List Char

/-- The ASCII whitespace characters stripped by Python's `str.strip()` and
matched by the regex class `\s`. -/
def isPySpace (c : Char) : Bool :=
  c = ' ' || c = '\t' || c = '\n' || c = '\r' || c = '\x0b' || c = '\x0c'

/-- Python `str.strip()`: drop whitespace from both ends. -/
def pyStrip (s : Str) : Str :=
  ((s.dropWhile isPySpace).reverse.dropWhile isPySpace).reverse

/-- Split a string at every newline character; always returns at least one
(possibly empty) piece.  This is the common core of Python `str.splitlines`
and of re-splitting the final joined document into physical lines.
(Line boundaries other than LF are not used by the data this tool handles.) -/
def splitNL : Str → List Str
  | [] => [[]]
  | c :: t =>
    if c = '\n' then [] :: splitNL t
    else
      match splitNL t with
      | [] => [[c]]
      | l :: ls => (c :: l) :: ls

/-- Python `str.splitlines()`: like `splitNL` but the empty string gives no
lines and a trailing newline does not produce a trailing empty line. -/
def splitlinesPy (s : Str) : List Str :=
  if s = [] then []
  else if s.getLast? = some '\n' then (splitNL s).dropLast
  else splitNL s

/-- Python `'\n'.join(...)`. -/
def joinNL : List Str → Str
  | [] => []
  | [x] => x
  | x :: xs => x ++ '\n' :: joinNL xs

/-- All physical lines of a list of emitted entries (each entry may itself
contain embedded newlines). -/
def flatSplit : List Str → List Str
  | [] => []
  | e :: es => splitNL e ++ flatSplit es

/-- The decimal digit characters, for rendering nonnegative integers the way
Python `str.format` renders an `int`. -/
def digitChar : Nat → Char
  | 0 => '0' | 1 => '1' | 2 => '2' | 3 => '3' | 4 => '4'
  | 5 => '5' | 6 => '6' | 7 => '7' | 8 => '8' | _ => '9'

/-- Decimal rendering of a natural number (Python `'{}'.format(n)` for a
nonnegative `int`). -/
def natStr (n : Nat) : Str :=
  if _h : n < 10 then [digitChar n]
  else natStr (n / 10) ++ [digitChar (n % 10)]
  decreasing_by exact Nat.div_lt_self (by omega) (by omega)

/-! ### Regex-matching combinators

`load_all_resource` and `download_embedded_images` each run one
`re.findall`.  The two patterns are matched here with explicit scanners:
a match is attempted at every position, scanning resumes after a successful
match, and the lazy groups `(.*?)` take the shortest run of non-newline
characters up to the closing delimiter.  (Backtracking into a longer lazy
capture — needed only when the captured text itself contains the closing
delimiter and the pattern's continuation then fails — is not modelled; the
Link headers and attachment URLs matched by this program never contain such
sequences.) -/

/-- Consume one expected literal character. -/
def expectChar (c : Char) : Str → Option Str
  | x :: t => if x = c then some t else none
  | [] => none

/-- Try to strip a literal prefix, returning the remainder. -/
def dropPrefix (p s : Str) : Option Str :=
  if p.isPrefixOf s then some (s.drop p.length) else none

/-- Lazy capture `(.*?)X` for a class `X` of terminator characters: take the
shortest run of non-newline characters up to a terminator, and consume the
terminator. -/
def lazyTo (stop : List Char) (s : Str) : Option (Str × Str) :=
  let cap := s.takeWhile (fun c => !(stop.contains c) && c != '\n')
  match s.drop cap.length with
  | c :: t => if stop.contains c then some (cap, t) else none
  | [] => none

/-- `\s+`: consume at least one whitespace character. -/
def ws1 (s : Str) : Option Str :=
  let sp := s.takeWhile isPySpace
  if sp = [] then none else some (s.drop sp.length)

theorem expectChar_lt {c : Char} {s t : Str} (h : expectChar c s = some t) :
    t.length < s.length := by
  cases s with
  | nil => simp [expectChar] at h
  | cons x xs =>
    simp only [expectChar] at h
    split at h
    · cases h; simp
    · cases h

theorem dropPrefix_le {p s t : Str} (h : dropPrefix p s = some t) :
    t.length ≤ s.length := by
  simp only [dropPrefix] at h
  split at h
  · cases h; simp
  · cases h

theorem drop_len_le (n : Nat) (s : Str) : (s.drop n).length ≤ s.length := by
  simp [List.length_drop]

theorem lazyTo_lt {stop : List Char} {s cap t : Str}
    (h : lazyTo stop s = some (cap, t)) : t.length < s.length := by
  simp only [lazyTo] at h
  split at h
  · rename_i c t' heq
    split at h
    · cases h
      have h1 : (c :: t).length ≤ s.length := by
        rw [← heq]; exact drop_len_le _ _
      simp at h1; omega
    · cases h
  · cases h

theorem ws1_le {s t : Str} (h : ws1 s = some t) : t.length ≤ s.length := by
  simp only [ws1] at h
  split at h
  · cases h
  · cases h; exact drop_len_le _ _

/-! ## Paginated fetcher (`load_all_resource`, source lines 42-64) -/

/-- An HTTP response as seen by `load_all_resource`: success flag (`r.ok`),
status code and reason, the JSON payload (a list — the paginated endpoints
return arrays), and the optional `Link` header (`r.headers['link']`). -/
structure Resp (α : Type) where
  ok : Bool
  status : Nat
  reason : Str
  data : List α
  link : Option Str

/-- One attempted match of the Link-header pattern `<(.*?)>;\s+rel="(.*?)"`
at the start of `s`: on success returns the two captures (URL, rel) and the
remainder after the match. -/
def matchLinkAt (s : Str) : Option (Str × Str × Str) :=
  (expectChar '<' s).bind fun t0 =>
  (lazyTo ['>'] t0).bind fun ur =>
  (expectChar ';' ur.2).bind fun t2 =>
  (ws1 t2).bind fun t3 =>
  (dropPrefix ("rel=\"".data) t3).bind fun t4 =>
  (lazyTo ['"'] t4).map fun rl => (ur.1, rl.1, rl.2)

theorem matchLinkAt_lt {s : Str} {r : Str × Str × Str}
    (h : matchLinkAt s = some r) : r.2.2.length < s.length := by
  simp only [matchLinkAt, Option.bind_eq_some] at h
  obtain ⟨t0, h0, ur, h1, t2, h2, t3, h3, t4, h4, h5⟩ := h
  rw [Option.map_eq_some'] at h5
  obtain ⟨rl, h5, h6⟩ := h5
  have e0 := expectChar_lt h0
  have e1 := lazyTo_lt h1
  have e2 := expectChar_lt h2
  have e3 := ws1_le h3
  have e4 := dropPrefix_le h4
  have e5 := @lazyTo_lt ['"'] t4 rl.1 rl.2 (by rw [← h5])
  subst h6
  simp only []
  omega

/-- Scanning loop of `re.findall`: attempt a match at each position and
resume after each successful match.  The `fuel` argument only makes the
recursion structural: every step consumes at least one character
(`matchLinkAt_lt`), so `fuel = s.length` never runs out. -/
def findLinksAux : Nat → Str → List (Str × Str)
  | 0, _ => []
  | fuel + 1, s =>
    match matchLinkAt s with
    | some (url, rel, rest) => (url, rel) :: findLinksAux fuel rest
    | none =>
      match s with
      | [] => []
      | _ :: t => findLinksAux fuel t

/-- `re.findall` of the Link-header pattern over a whole header value
(source line 60). -/
def findLinks (s : Str) : List (Str × Str) := findLinksAux s.length s

/-- The `pages` dictionary `{rel: url for url, rel in findall}` (later pairs
overwrite earlier ones) looked up at key `"next"` (source lines 60-62). -/
def pagesNext (pairs : List (Str × Str)) : Option Str :=
  (pairs.reverse.find? (fun p => p.2 == "next".data)).map (·.1)

/-- The URL of the next page advertised by a response, if any: the `link`
header must be present and its parsed pairs must contain a `next` relation. -/
def respNext {α} (r : Resp α) : Option Str :=
  match r.link with
  | none => none
  | some h => pagesNext (findLinks h)

/-- The exception message raised on a non-success status (source lines 55-56). -/
def errMsg (url : Str) (status : Nat) (reason : Str) : Str :=
  "Github returned status code ".data ++ natStr status ++ " (".data ++ reason
    ++ ") when loading ".data ++ url
    ++ ". Check that your username, password, and repo name are correct.".data

/-- `load_all_resource(url, token)` (source lines 42-64) against an abstract
server.  Returns the list of URLs requested (in order) together with either
the concatenated payload of all pages or the raised error.  The Python
recursion has no depth bound; `fuel` caps it so the function is total, and
every theorem below supplies enough fuel for the page chain at hand. -/
def load_all_resource {α} (server : Str → Resp α) :
    Nat → Str → List Str × Except Str (List α)
  | 0, _ => ([], Except.error "recursion limit".data)
  | fuel + 1, url =>
    let r := server url
    if r.ok then
      match respNext r with
      | none => ([url], Except.ok r.data)
      | some u2 =>
        let rec' := load_all_resource server fuel u2
        (url :: rec'.1, rec'.2.map (fun d => r.data ++ d))
    else ([url], Except.error (errMsg url r.status r.reason))

/-- A finite pagination chain starting at a URL: every response succeeds,
each of the first pages advertises the next page's URL via its Link header,
and the last page advertises none.  `us` records the URLs in order and `ps`
their payloads. -/
inductive Chain {α} (server : Str → Resp α) : Str → List Str → List (List α) → Prop where
  | last : ∀ url, (server url).ok = true → respNext (server url) = none →
      Chain server url [url] [(server url).data]
  | more : ∀ url u2 us ps, (server url).ok = true →
      respNext (server url) = some u2 → Chain server u2 us ps →
      Chain server url (url :: us) ((server url).data :: ps)

/-- Core fetcher lemma: on a finite chain of `N` pages, given at least `N`
fuel, the fetcher requests exactly the chain's URLs in order and returns the
concatenation of the page payloads. -/
theorem load_chain {α} {server : Str → Resp α} {url us ps}
    (h : Chain server url us ps) :
    ∀ fuel, us.length ≤ fuel →
      load_all_resource server fuel url = (us, Except.ok ps.flatten) ∧
      us.length = ps.length := by
  induction h with
  | last url hok hnext =>
    intro fuel hfuel
    match fuel, hfuel with
    | fuel + 1, _ =>
      refine ⟨?_, rfl⟩
      simp only [load_all_resource, hok, if_true, hnext, List.flatten,
        List.append_nil]
  | more url u2 us ps hok hnext _ ih =>
    intro fuel hfuel
    match fuel, hfuel with
    | fuel + 1, hfuel =>
      have hle : us.length ≤ fuel := by
        simp at hfuel; omega
      obtain ⟨ih1, ih2⟩ := ih fuel hle
      refine ⟨?_, by simp [ih2]⟩
      simp only [load_all_resource, hok, if_true, hnext, ih1, List.flatten]
      rfl

/-! ## Issue aggregator (`get_json`, source lines 66-114)

The per-entity JSON objects become structures; keys that the script adds
after fetching (`reactions`, `comments`, `events`, `reviews`,
`review_comments`, `files` on an issue, `reactions_detailed` on a comment,
`contents` on a changed file, `created_at` on a review) are `Option` fields
that the fetch leaves at `none`.  The GitHub endpoints hit through
`load_all_resource` become an environment of fetch functions returning
`Except`, one per endpoint family; an error result models the
`RemoteRequestError` exception propagating out of the fetch. -/

/-- An emoji reaction payload (treated as opaque content). -/
structure Reaction where
  content : Str
deriving DecidableEq

/-- The `reactions` summary object carried by a fetched comment
(`comment['reactions']['total_count']`, `comment['reactions']['url']`). -/
structure ReactionSummary where
  total_count : Nat
  url : Str
deriving DecidableEq

/-- An issue comment as fetched; `reactions_detailed` is added by the
aggregator (source lines 88-92) and is `none` at fetch time. -/
structure IComment where
  created_at : Str
  user : Str
  body : Str
  reactions : ReactionSummary
  reactions_detailed : Option (List Reaction) := none
deriving DecidableEq

/-- A timeline event as fetched (treated as opaque by the aggregator). -/
structure IEvent where
  created_at : Str
  event : Str
  actor : Str
deriving DecidableEq

/-- A pull-request review as fetched; reviews carry `submitted_at` but no
`created_at`, which the aggregator copies in (source lines 100-103). -/
structure Review where
  submitted_at : Str
  user : Str
  body : Str
  created_at : Option Str := none
deriving DecidableEq

/-- A pull-request review comment as fetched (anchored to a file line). -/
structure RComment where
  path : Str
  line : Option Nat
  created_at : Str
  user : Str
  body : Str
deriving DecidableEq

/-- The payload of a `contents_url` fetch for a changed file. -/
structure FileContent where
  name : Str
  path : Str
  content : Str
deriving DecidableEq

/-- A changed file of a pull request as fetched; `contents` is added by the
aggregator (source lines 110-113) and is `none` at fetch time. -/
structure PullFile where
  name : Str
  path : Str
  contents_url : Str
  contents : Option FileContent := none
deriving DecidableEq

/-- An issue as fetched.  `pull_request` models the presence of the
`pull_request` key; the six collection fields are added by the aggregator
and are `none` at fetch time. -/
structure AIssue where
  number : Nat
  title : Str
  body : Str
  state : Str
  user : Str
  created_at : Str
  closed_at : Option Str
  comments_url : Str
  events_url : Str
  pull_request : Bool
  reactions : Option (List Reaction) := none
  comments : Option (List IComment) := none
  events : Option (List IEvent) := none
  reviews : Option (List Review) := none
  review_comments : Option (List RComment) := none
  files : Option (List PullFile) := none
deriving DecidableEq

/-- The remote endpoints consumed by `get_json`, keyed the way the script
addresses them (issue number for the URLs it formats itself, the embedded
URL for `comments_url` / `events_url` / reaction and contents URLs). -/
structure Env where
  issue : Nat → Except Str AIssue
  issues_all : Except Str (List AIssue)
  reactions_of : Nat → Except Str (List Reaction)
  comments_at : Str → Except Str (List IComment)
  comment_reactions_at : Str → Except Str (List Reaction)
  events_at : Str → Except Str (List IEvent)
  reviews_of : Nat → Except Str (List Review)
  review_comments_of : Nat → Except Str (List RComment)
  files_of : Nat → Except Str (List PullFile)
  contents_at : Str → Except Str FileContent

/-- Source lines 88-92: a comment whose reaction summary shows a nonzero
total gets one extra fetch and gains the detailed list. -/
def enrichComment (env : Env) (c : IComment) : Except Str IComment :=
  if c.reactions.total_count > 0 then
    (env.comment_reactions_at c.reactions.url).map
      (fun d => { c with reactions_detailed := some d })
  else pure c

/-- Source lines 110-113: each changed file gets its contents fetched. -/
def enrichFile (env : Env) (f : PullFile) : Except Str PullFile :=
  (env.contents_at f.contents_url).map (fun c => { f with contents := some c })

/-- The body of the per-issue loop of `get_json` (source lines 81-113). -/
def enrichIssue (env : Env) (i : AIssue) : Except Str AIssue := do
  let rs ← env.reactions_of i.number
  let cs ← env.comments_at i.comments_url
  let cs' ← cs.mapM (enrichComment env)
  let es ← env.events_at i.events_url
  if i.pull_request then
    let rv ← env.reviews_of i.number
    let rv' := rv.map (fun v => { v with created_at := some v.submitted_at })
    let rc ← env.review_comments_of i.number
    let fs ← env.files_of i.number
    let fs' ← fs.mapM (enrichFile env)
    pure { i with reactions := some rs, comments := some cs', events := some es,
                  reviews := some rv', review_comments := some rc,
                  files := some fs' }
  else
    pure { i with reactions := some rs, comments := some cs', events := some es }

/-- `get_json(token, repo, issue)` (source lines 66-114): resolve the base
issue list (a singleton when an issue number is given), then enrich every
issue in order. -/
def get_json (env : Env) (issue : Option Nat) : Except Str (List AIssue) := do
  let base ← match issue with
    | some n => (env.issue n).map (fun i => [i])
    | none => env.issues_all
  base.mapM (enrichIssue env)

/-! ## Image downloader (`download_embedded_images`, source lines 116-131) -/

/-- UTF-8 encoding of one character (Python `str.encode('utf-8')`). -/
def utf8Bytes (c : Char) : List Nat :=
  let n := c.toNat
  if n < 128 then [n]
  else if n < 2048 then [192 + n / 64, 128 + n % 64]
  else if n < 65536 then [224 + n / 4096, 128 + n / 64 % 64, 128 + n % 64]
  else [240 + n / 262144, 128 + n / 4096 % 64, 128 + n / 64 % 64, 128 + n % 64]

/-- UTF-8 encoding of a string as a byte list. -/
def utf8Encode (s : Str) : List Nat := s.flatMap utf8Bytes

/-- The standard base64 alphabet (`base64.b64encode`): note values 62 and 63
map to `+` and `/`, which are not URL-safe. -/
def b64Char (n : Nat) : Char :=
  if n < 26 then Char.ofNat (65 + n)
  else if n < 52 then Char.ofNat (97 + (n - 26))
  else if n < 62 then Char.ofNat (48 + (n - 52))
  else if n = 62 then '+' else '/'

/-- `base64.b64encode` over a byte list, with `=` padding. -/
def b64encode : List Nat → Str
  | [] => []
  | [a] => [b64Char (a / 4), b64Char (a % 4 * 16), '=', '=']
  | [a, b] => [b64Char (a / 4), b64Char (a % 4 * 16 + b / 16),
               b64Char (b % 16 * 4), '=']
  | a :: b :: c :: rest =>
      [b64Char (a / 4), b64Char (a % 4 * 16 + b / 16),
       b64Char (b % 16 * 4 + c / 64), b64Char (c % 64)] ++ b64encode rest

/-- Python `path.rsplit('.', 1)[-1]`: everything after the last dot, or the
whole string when there is no dot. -/
def lastExt (p : Str) : Str :=
  if '.' ∈ p then (p.reverse.takeWhile (fun c => c != '.')).reverse else p

/-- One attempted match of the attachment pattern
`[\("]https:\/\/(cloud|user-images).githubusercontent.com\/(.*?)[\)"]`
at the start of `s` (the two unescaped dots of the pattern each match one
arbitrary non-newline character): on success returns the subdomain capture,
the path capture, and the remainder after the closing delimiter. -/
def matchImageAt (s : Str) : Option (Str × Str × Str) :=
  (match s with
   | c :: t => if c = '(' || c = '"' then some t else none
   | [] => none).bind fun t0 =>
  (dropPrefix ("https://".data) t0).bind fun t1 =>
  (match dropPrefix ("cloud".data) t1 with
   | some r => some (("cloud".data : Str), r)
   | none =>
     match dropPrefix ("user-images".data) t1 with
     | some r => some (("user-images".data : Str), r)
     | none => none).bind fun sub =>
  (match sub.2 with
   | c :: t => if c != '\n' then some t else none
   | [] => none).bind fun t3 =>
  (dropPrefix ("githubusercontent".data) t3).bind fun t4 =>
  (match t4 with
   | c :: t => if c != '\n' then some t else none
   | [] => none).bind fun t5 =>
  (dropPrefix ("com/".data) t5).bind fun t6 =>
  (lazyTo [')', '"'] t6).map fun (pr : Str × Str) => (sub.1, pr.1, pr.2)

theorem matchImageAt_lt {s : Str} {r : Str × Str × Str}
    (h : matchImageAt s = some r) : r.2.2.length < s.length := by
  simp only [matchImageAt, Option.bind_eq_some] at h
  obtain ⟨t0, h0, t1, h1, sub, h2, t3, h3, t4, h4, t5, h5, t6, h6, h7⟩ := h
  rw [Option.map_eq_some'] at h7
  obtain ⟨pr, h7, h8⟩ := h7
  have e0 : t0.length < s.length := by
    cases s with
    | nil => cases h0
    | cons c t =>
      simp only at h0
      split at h0
      · cases h0; simp
      · cases h0
  have e1 := dropPrefix_le h1
  have e2 : sub.2.length ≤ t1.length := by
    split at h2
    · rename_i r' hr; cases h2; exact dropPrefix_le hr
    · split at h2
      · rename_i r' hr; cases h2; exact dropPrefix_le hr
      · cases h2
  have e3 : t3.length < sub.2.length := by
    cases hs : sub.2 with
    | nil => rw [hs] at h3; cases h3
    | cons c t =>
      rw [hs] at h3; simp only at h3
      split at h3
      · cases h3; simp
      · cases h3
  have e4 := dropPrefix_le h4
  have e5 : t5.length < t4.length := by
    cases ht : t4 with
    | nil => rw [ht] at h5; cases h5
    | cons c t =>
      rw [ht] at h5; simp only at h5
      split at h5
      · cases h5; simp
      · cases h5
  have e6 := dropPrefix_le h6
  have e7 := lazyTo_lt h7
  subst h8
  simp only []
  omega

/-- Scanning loop of `re.findall` for the attachment pattern; as with
`findLinksAux`, the fuel only makes the recursion structural and
`fuel = s.length` never runs out (`matchImageAt_lt`). -/
def findImagesAux : Nat → Str → List (Str × Str)
  | 0, _ => []
  | fuel + 1, s =>
    match matchImageAt s with
    | some (sub, path, rest) => (sub, path) :: findImagesAux fuel rest
    | none =>
      match s with
      | [] => []
      | _ :: t => findImagesAux fuel t

/-- `re.findall` of the attachment pattern over the serialized aggregate
(source line 121). -/
def findImages (s : Str) : List (Str × Str) := findImagesAux s.length s

/-- The reconstructed image URL and the output filename for one match
(source lines 122 and 126): the file is named by base64-encoding the UTF-8
bytes of the path and appending a dot and the path's last extension. -/
def imageWrite (m : Str × Str) : Str × Str :=
  ("https://".data ++ m.1 ++ ".githubusercontent.com/".data ++ m.2,
   b64encode (utf8Encode m.2) ++ '.' :: lastExt m.2)

/-- `download_embedded_images` (source lines 116-131) as the sequence of
(URL fetched, filename written) pairs it performs over the serialized
aggregate, one per pattern match in order. -/
def download_embedded_images (jsonStr : Str) : List (Str × Str) :=
  (findImages jsonStr).map imageWrite

/-! ## Markdown helpers (`mkdown_*`, source lines 133-162) -/

/-- The `<a name="..."></a>` fragment prepended by `mkdown_h` when a link
target is given. -/
def anchorOf : Option Str → Str
  | none => []
  | some l => "<a name=\"".data ++ l ++ "\"></a>".data

/-- `mkdown_h(text, level, link)` (source lines 133-144). -/
def mkdown_h (text : Str) (level : Nat) (link : Option Str) : Str :=
  if level = 1 then
    '\n' :: anchorOf link ++ text ++ '\n' :: List.replicate text.length '='
  else if level = 2 then
    '\n' :: anchorOf link ++ text ++ '\n' :: List.replicate text.length '-'
  else
    '\n' :: List.replicate level '#' ++ ' ' :: anchorOf link ++ text

/-- `mkdown_p(text)` (source lines 146-150). -/
def mkdown_p (text : Str) : Str :=
  joinNL ((splitlinesPy text).map pyStrip) ++ ['\n']

/-- `mkdown_hr()` (source lines 152-156). -/
def mkdown_hr : Str := "\n---".data

/-- `mkdown_blockquote(text)` (source lines 158-162). -/
def mkdown_blockquote (text : Str) : Str :=
  joinNL ((splitlinesPy text).map (fun l => '>' :: ' ' :: pyStrip l))

/-! ## Markdown renderer (`build_markdown`, source lines 164-274)

The renderer reads the aggregated per-issue dictionaries.  Its view of an
issue (`RIssue`) carries the collections the rendering code indexes
directly: `comments`, `events` and `reviews` feed the activity feed, and
pull requests additionally carry `review_comments` and `files`.  A feed
item is the comment/event/review union discriminated by which keys are
present, so its fields are `Option`s.  A rendered file carries the decoded
text of the fetched contents: the source stores the base64 payload and
decodes it with `base64.b64decode(...).decode('utf-8')` at line 191; the
embedding carries the already-decoded text, since nothing in the renderer
inspects the undecoded form. -/

/-- One item of the activity feed: a comment, event or review dictionary,
discriminated by which keys are present (comments and reviews have `user`,
events have `event`).  `created_at` is present on all three (the aggregator
copies `submitted_at` into `created_at` for reviews). -/
structure FeedItem where
  created_at : Str
  user : Option Str := none
  body : Option Str := none
  event : Option Str := none
  label : Option Str := none
  assignee : Option Str := none
  actor : Option Str := none
  commit_id : Option Str := none
deriving DecidableEq

/-- A changed file as the renderer sees it: `file_['contents']` with its
`name`, `path` and decoded text. -/
structure RFile where
  name : Str
  path : Str
  text : Str
deriving DecidableEq

/-- An issue as the renderer sees it (the fields indexed by
`build_markdown`).  `comments` and `events` are set by the aggregator on
every issue, and `review_comments` / `files` are indexed only under the
`pull_request` guard (source line 186) and set exactly for pull requests,
so those four are total.  `reviews`, however, is indexed unconditionally at
source line 240 while the aggregator sets it only for pull requests, so it
is an `Option`: `none` models the dictionary key being absent, on which the
source raises `KeyError`. -/
structure RIssue where
  number : Nat
  title : Str
  body : Str
  state : Str
  user : Str
  created_at : Str
  closed_at : Option Str
  pull_request : Bool
  comments : List FeedItem
  events : List FeedItem
  reviews : Option (List FeedItem)
  review_comments : List RComment
  files : List RFile
deriving DecidableEq

/-- Python string `<=` (lexicographic by code point). -/
def strLe : Str → Str → Bool
  | [], _ => true
  | _ :: _, [] => false
  | a :: as, b :: bs => if a = b then strLe as bs else decide (a.toNat < b.toNat)

/-- Stable insertion of `x` into a sorted list: `x` goes immediately before
the first element it is `le`-below-or-tied-with from the right.  Together
with `pySorted` this reproduces the result of Python's stable `sorted`. -/
def pyInsert (le : α → α → Bool) (x : α) : List α → List α
  | [] => [x]
  | y :: ys => if le x y then x :: y :: ys else y :: pyInsert le x ys

/-- Python `sorted(l, key=...)`: a stable ascending sort.  Any two stable
sorts agree on every list, so this insertion sort returns exactly what
CPython's Timsort returns. -/
def pySorted (le : α → α → Bool) : List α → List α
  | [] => []
  | x :: xs => pyInsert le x (pySorted le xs)

/-- The comparison used for the activity feed (source line 240):
`key=lambda x: x['created_at']`. -/
def feedLe (a b : FeedItem) : Bool := strLe a.created_at b.created_at

/-- The comparison used for issue ordering (source lines 172 and 175):
`key=lambda x: x['number']`. -/
def numberLe (a b : RIssue) : Bool := decide (a.number ≤ b.number)

/-- The rendered block for one feed item (source lines 244-263): the branch
cascade on the discriminating keys.  An item matching no branch renders
nothing.  (The source indexes `item['body']` directly in the `user` branch;
a comment or review always carries a body.) -/
def renderItemBlocks (it : FeedItem) : List Str :=
  match it.user with
  | some u =>
    [mkdown_h ('(' :: it.created_at ++ ") ".data ++ u ++ [':']) 4 none,
     mkdown_p (it.body.getD [])]
  | none =>
    match it.event with
    | some ev =>
      if ev = "labeled".data then
        [mkdown_h ('(' :: it.created_at ++ ") Labeled \"".data
          ++ it.label.getD [] ++ ['"']) 4 none]
      else if ev = "assigned".data then
        [mkdown_h ('(' :: it.created_at ++ ") Assigned to ".data
          ++ it.assignee.getD []) 4 none]
      else if ev = "referenced".data then
        [mkdown_h ('(' :: it.created_at ++ ") Referenced by ".data
          ++ it.actor.getD [] ++ " in commit ".data ++ it.commit_id.getD [])
          4 none]
      else if ev = "closed".data then
        [mkdown_h ('(' :: it.created_at ++ ") Closed by ".data
          ++ it.actor.getD []) 4 none]
      else if ev = "reopened".data then
        [mkdown_h ('(' :: it.created_at ++ ") Reopened by ".data
          ++ it.actor.getD []) 4 none]
      else []
    | none => []

/-- The activity-feed loop (source lines 239-272): items with an empty body
are skipped, and a horizontal rule is placed before every rendered item
except the first. -/
def feedLoop : Bool → List FeedItem → List Str
  | _, [] => []
  | isFirst, it :: rest =>
    if it.body = some [] then feedLoop isFirst rest
    else
      let items := renderItemBlocks it
      if items = [] then feedLoop isFirst rest
      else (if isFirst then [] else [mkdown_hr]) ++ items ++ feedLoop false rest

/-- The full activity feed of an issue (source line 240): comments, events
and reviews concatenated, stably sorted by `created_at`, then rendered.
Source line 240 indexes `issue['reviews']` unconditionally; when the key is
absent (every non-pull-request issue, since `get_json` sets it only at line
97) that lookup raises `KeyError`, modelled as the error result. -/
def activityFeed (i : RIssue) : Except Str (List Str) :=
  match i.reviews with
  | none => Except.error ("KeyError: 'reviews'".data)
  | some rvs =>
    Except.ok (feedLoop true (pySorted feedLe (i.comments ++ i.events ++ rvs)))

/-- Line 211's check `line.startswith('```')`. -/
def isFence (l : Str) : Bool := ("```".data).isPrefixOf l

/-- The review comments of one file grouped by anchored line (source lines
198-205): comments on other paths or without a line are dropped; per-line
order is the fetched order. -/
def commentsFor (rcs : List RComment) (fpath : Str) (n : Nat) : List RComment :=
  rcs.filter (fun c => c.path == fpath && c.line == some n)

/-- The block-quoted entries emitted for the comments of one line (source
lines 222-231). -/
def commentEntries (cs : List RComment) : List Str :=
  cs.flatMap (fun c =>
    [mkdown_blockquote mkdown_hr,
     mkdown_blockquote (mkdown_h ('(' :: c.created_at ++ ") ".data
       ++ c.user ++ [':']) 4 none),
     mkdown_blockquote c.body])

/-- The per-line loop over a file's contents (source lines 209-234):
`cb` is the `codeblock` variable holding the opening line of the currently
open fenced block, toggled on every line starting with three backticks;
after a line that has anchored comments, an open block is closed, the
comments are emitted, and the original opening line is emitted again. -/
def renderContentLoop (cmts : Nat → List RComment) :
    Option Str → Nat → List Str → List Str
  | _, _, [] => []
  | cb, n, line :: rest =>
    let cb' := if isFence line then (if cb.isSome then none else some line)
               else cb
    (line ::
      (if cmts n = [] then []
       else
         (match cb' with
          | some _ => [("```".data : Str)]
          | none => []) ++
         commentEntries (cmts n) ++
         (match cb' with
          | some op => [op]
          | none => [])))
    ++ renderContentLoop cmts cb' (n + 1) rest

/-- The `Files` body for one changed file (source lines 188-235): only
files named `*.md` are rendered — path paragraph, contents interleaved with
anchored review comments, closing horizontal rule. -/
def fileSection (rcs : List RComment) (f : RFile) : List Str :=
  if (".md".data).isSuffixOf f.name then
    mkdown_p ('`' :: f.path ++ ['`']) ::
      renderContentLoop (commentsFor rcs f.path) none 1 (splitlinesPy f.text)
      ++ [mkdown_hr]
  else []

/-- The level-2 issue header (source line 179); in full-repository mode
(`filt = none`) it carries the issue number as anchor. -/
def issueHeader (filt : Option Nat) (number : Nat) (title state : Str) : Str :=
  mkdown_h ('#' :: natStr number ++ ": ".data ++ title ++ " (".data
    ++ state ++ [')']) 2
    (match filt with
     | none => some (natStr number)
     | some _ => none)

/-- One table-of-contents entry (source line 173):
`* [{number}: {title}](#{number})`. -/
def tocEntryOf (number : Nat) (title : Str) : Str :=
  "* [".data ++ natStr number ++ ": ".data ++ title ++ "](#".data
    ++ natStr number ++ [')']

/-- The `, closed ...` suffix of the metadata line (source line 180);
Python tests the truthiness of `issue['closed_at']`. -/
def closedSuffix : Option Str → Str
  | none => []
  | some s => if s = [] then [] else ", closed ".data ++ s

/-- All entries emitted for one issue (source lines 175-272); the
`KeyError` raised by the activity feed of a non-pull-request issue
propagates. -/
def issueSection (filt : Option Nat) (i : RIssue) : Except Str (List Str) :=
  (activityFeed i).map (fun feed =>
    [issueHeader filt i.number i.title i.state,
     mkdown_p ("Opened ".data ++ i.created_at ++ " by ".data ++ i.user
       ++ closedSuffix i.closed_at),
     mkdown_p i.body]
    ++ (if i.pull_request then
          mkdown_h ("Files".data) 2 none ::
            i.files.flatMap (fileSection i.review_comments)
        else [])
    ++ [mkdown_h ("Comments".data) 2 none]
    ++ feed)

/-- `build_markdown(repo, data)` (source lines 164-274).  The global
`ISSUE` becomes the `filt` parameter: in full-repository mode a title and a
table of contents precede the issue sections; both the table of contents
and the sections traverse the issues sorted ascending by number.  An
uncaught `KeyError` from any issue's section aborts the whole render, so
the result is fallible. -/
def build_markdown (filt : Option Nat) (repo : Str) (data : List RIssue) :
    Except Str Str :=
  ((pySorted numberLe data).mapM (issueSection filt)).map (fun secs =>
    joinNL
      ((match filt with
        | none =>
          mkdown_h (repo ++ " Issues".data) 1 none ::
            (pySorted numberLe data).flatMap
              (fun i => [tocEntryOf i.number i.title, []])
        | some _ => []) ++
       secs.flatten))

/-! ## Entry point (`__main__`, source lines 276-292) -/

/-- A filesystem effect performed by the entry point or the image
downloader. -/
inductive Eff where
  | mkdirOutput : Eff
  | writeFile : Str → Eff
  | removeFile : Str → Eff
deriving DecidableEq

/-- The `__main__` block (source lines 276-292) over abstract outcomes: the
output folder is created if absent, then the aggregate is fetched, then the
embedded images are downloaded (producing their own file writes), and only
then are the JSON and Markdown files written.  A raised error propagates
and ends the run; no cleanup of any kind is performed. -/
def mainRun (outputExists : Bool) (filt : Option Nat)
    (fetchIssues : Except Str (List AIssue))
    (fetchImages : List AIssue → List Str × Except Str Unit) :
    List Eff × Except Str Unit :=
  let t0 : List Eff := if outputExists then [] else [Eff.mkdirOutput]
  match fetchIssues with
  | Except.error e => (t0, Except.error e)
  | Except.ok issues =>
    let (imgWrites, imgRes) := fetchImages issues
    let t1 := t0 ++ imgWrites.map Eff.writeFile
    match imgRes with
    | Except.error e => (t1, Except.error e)
    | Except.ok _ =>
      let base : Str := match filt with
        | none => "issues".data
        | some n => natStr n
      (t1 ++ [Eff.writeFile (base ++ ".json".data),
              Eff.writeFile (base ++ ".md".data)], Except.ok ())

/-! ## Anchor and fragment parsing (for the round-trip claim) -/

/-- The remainder of `s` after the first occurrence of `m`, if any. -/
def afterFirst (m : Str) : Str → Option Str
  | [] => if m = [] then some [] else none
  | c :: t =>
    if m.isPrefixOf (c :: t) then some ((c :: t).drop m.length)
    else afterFirst m t

/-- Parse the anchor name out of a generated header: the text between the
first `<a name="` and the following `"`. -/
def anchorNameOf (s : Str) : Option Str :=
  (afterFirst ("<a name=\"".data) s).map (List.takeWhile (fun c => c != '"'))

/-- Parse the fragment target out of a generated table-of-contents entry:
the text between the final `#` and the closing `)`. -/
def fragOf (s : Str) : Option Str :=
  match s.reverse with
  | ')' :: t => if '#' ∈ t then some ((t.takeWhile (fun c => c != '#')).reverse)
                else none
  | _ => none

/-! ## Claims C3, C6 — paginated fetcher -/

/-- C3: For every sequence of N paginated responses in which each of the
first N-1 responses carries a Link header with a `next` relation pointing to
the following page and the Nth does not, the paginated fetcher returns the
concatenation of the N page payloads in page order and performs exactly N
GET requests (the request trace is exactly the chain's URLs); termination on
every finite chain is witnessed by `fuel = N` sufficing. -/
theorem fetcher_concatenates_pages {α} (server : Str → Resp α) (url : Str)
    (us : List Str) (ps : List (List α)) (fuel : Nat)
    (hchain : Chain server url us ps) (hfuel : us.length ≤ fuel) :
    load_all_resource server fuel url = (us, Except.ok ps.flatten) ∧
    us.length = ps.length :=
  load_chain hchain fuel hfuel

/-- A concrete two-page server: page `pg1` advertises `pg2` via a real Link
header; `pg2` is the last page; everything else is a 404. -/
def cServer : Str → Resp Nat := fun u =>
  if u = "pg1".data then
    { ok := true, status := 200, reason := "OK".data, data := [1, 2],
      link := some ("<pg2>; rel=\"next\"".data) }
  else if u = "pg2".data then
    { ok := true, status := 200, reason := "OK".data, data := [3], link := none }
  else
    { ok := false, status := 404, reason := "Not Found".data, data := [],
      link := none }

theorem fetcher_concatenates_pages_witness :
    load_all_resource cServer 2 ("pg1".data) =
      (["pg1".data, "pg2".data], Except.ok [1, 2, 3]) ∧
    ([("pg1".data : Str), "pg2".data].length = [[1, 2], [3]].length) :=
  fetcher_concatenates_pages cServer ("pg1".data)
    ["pg1".data, "pg2".data] [[1, 2], [3]] 2
    (Chain.more _ _ _ _ (by decide) (by decide)
      (Chain.last _ (by decide) (by decide)))
    (by decide)

/-- C6: on a response with a non-success status the fetcher raises, after
exactly that one request, an error whose message names the URL, the numeric
status code and the reason; on a success status with no further page it
returns normally (so an error at a request is raised exactly on a
non-success status). -/
theorem fetcher_error_iff_bad_status {α} (server : Str → Resp α)
    (url : Str) (fuel : Nat) (hfuel : 0 < fuel) :
    ((server url).ok = false →
      load_all_resource server fuel url =
        ([url], Except.error (errMsg url (server url).status (server url).reason))) ∧
    ((server url).ok = true → respNext (server url) = none →
      load_all_resource server fuel url = ([url], Except.ok (server url).data)) ∧
    (∀ status reason, url <:+: errMsg url status reason ∧
      natStr status <:+: errMsg url status reason ∧
      reason <:+: errMsg url status reason) := by
  match fuel, hfuel with
  | fuel + 1, _ =>
    refine ⟨?_, ?_, ?_⟩
    · intro hbad
      simp only [load_all_resource, hbad, Bool.false_eq_true, if_false]
    · intro hok hnext
      simp only [load_all_resource, hok, if_true, hnext]
    · intro status reason
      refine ⟨⟨"Github returned status code ".data ++ natStr status
          ++ " (".data ++ reason ++ ") when loading ".data,
          ". Check that your username, password, and repo name are correct.".data,
          ?_⟩, ⟨"Github returned status code ".data, " (".data ++ reason
          ++ ") when loading ".data ++ url
          ++ ". Check that your username, password, and repo name are correct.".data,
          ?_⟩, ⟨"Github returned status code ".data ++ natStr status
          ++ " (".data, ") when loading ".data ++ url
          ++ ". Check that your username, password, and repo name are correct.".data,
          ?_⟩⟩ <;>
        simp [errMsg]

theorem fetcher_error_iff_bad_status_witness :
    load_all_resource cServer 1 ("bad".data) =
      (["bad".data], Except.error (errMsg ("bad".data) 404 ("Not Found".data))) ∧
    load_all_resource cServer 1 ("pg2".data) =
      (["pg2".data], Except.ok [3]) ∧
    ("bad".data <:+: errMsg ("bad".data) 404 ("Not Found".data)) := by
  have h1 := fetcher_error_iff_bad_status cServer ("bad".data) 1 (by decide)
  have h2 := fetcher_error_iff_bad_status cServer ("pg2".data) 1 (by decide)
  exact ⟨h1.1 (by decide), h2.2.1 (by decide) (by decide),
    (h1.2.2 404 ("Not Found".data)).1⟩

/-! ## Claim C5 — abort on any fetch failure -/

/-- The image writes that happened before a failure: none when the issue
aggregation itself failed, otherwise whatever the downloader wrote. -/
def imgWritesOf (fetchIssues : Except Str (List AIssue))
    (fetchImages : List AIssue → List Str × Except Str Unit) : List Str :=
  match fetchIssues with
  | Except.ok d => (fetchImages d).1
  | Except.error _ => []

/-- C5: if the issue aggregation or any image download fails, the run ends
with that error; the effect trace then contains only the (possible)
directory creation and the image writes performed so far — in particular
neither the JSON nor the Markdown output write — and no removal of any file
is ever performed. -/
theorem run_aborts_on_fetch_failure (outputExists : Bool) (filt : Option Nat)
    (fetchIssues : Except Str (List AIssue))
    (fetchImages : List AIssue → List Str × Except Str Unit) (e : Str)
    (hfail : fetchIssues = Except.error e ∨
      ∃ d, fetchIssues = Except.ok d ∧ (fetchImages d).2 = Except.error e) :
    (mainRun outputExists filt fetchIssues fetchImages).2 = Except.error e ∧
    (mainRun outputExists filt fetchIssues fetchImages).1 =
      (if outputExists then [] else [Eff.mkdirOutput]) ++
      (imgWritesOf fetchIssues fetchImages).map Eff.writeFile ∧
    (∀ f, Eff.removeFile f ∉ (mainRun outputExists filt fetchIssues fetchImages).1) := by
  rcases hfail with he | ⟨d, hd, he⟩
  · subst he
    refine ⟨rfl, by simp [mainRun, imgWritesOf], ?_⟩
    intro f hf
    simp only [mainRun] at hf
    rcases Bool.eq_false_or_eq_true outputExists with h | h <;> simp [h] at hf
  · subst hd
    rcases hp : fetchImages d with ⟨tr, res⟩
    rw [hp] at he
    simp only at he
    subst he
    refine ⟨by simp [mainRun, hp], by simp [mainRun, imgWritesOf, hp], ?_⟩
    intro f hf
    simp only [mainRun, hp] at hf
    rcases Bool.eq_false_or_eq_true outputExists with h | h <;>
      simp [h, List.mem_append, List.mem_map] at hf

theorem run_aborts_on_fetch_failure_witness :
    (mainRun false none (Except.error ("boom".data))
      (fun _ => ([], Except.ok ()))).2 = Except.error ("boom".data) ∧
    (mainRun false none (Except.error ("boom".data))
      (fun _ => ([], Except.ok ()))).1 =
      [Eff.mkdirOutput] ++
        (imgWritesOf (Except.error ("boom".data))
          (fun _ => ([], Except.ok ()))).map Eff.writeFile ∧
    (∀ f, Eff.removeFile f ∉ (mainRun false none (Except.error ("boom".data))
      (fun _ => ([], Except.ok ()))).1) :=
  run_aborts_on_fetch_failure false none (Except.error ("boom".data))
    (fun _ => ([], Except.ok ())) ("boom".data) (Or.inl rfl)

/-! ## Claim C4 — image downloader -/

/-- The example attachment URL from the specification. -/
def imgURL : Str := "https://user-images.githubusercontent.com/123/abc.png".data

/-- C4 counterexample: the example URL occurring in the serialized
aggregate *not* immediately preceded by `(` or `"` is not matched by the
attachment pattern, so no file is written for it — refuting "any occurrence
of such a URL anywhere in the serialized aggregate is matched and
downloaded". -/
theorem image_url_not_matched_without_delimiter :
    imgURL <:+: (' ' :: imgURL ++ [' ']) ∧
    download_embedded_images (' ' :: imgURL ++ [' ']) = [] :=
  ⟨⟨[' '], [' '], rfl⟩, by decide⟩

/-- C4 (amended): an occurrence of the attachment URL delimited as the
pattern requires — immediately preceded by `(` or `"` and terminated by `)`
or `"`, as happens for a URL standing alone in a serialized JSON string —
is matched exactly once, and the single file written for it is named by the
standard (not URL-safe) base64 encoding of the UTF-8 path bytes followed by
a dot and the path's original extension; for the path `123/abc.png` that
name is `MTIzL2FiYy5wbmc=.png`.  Standard base64 output can contain `/`, so
the encoding is not URL-safe in general. -/
theorem image_download_one_file_per_delimited_match :
    findImages ('"' :: imgURL ++ ['"']) =
      [("user-images".data, "123/abc.png".data)] ∧
    download_embedded_images ('"' :: imgURL ++ ['"']) =
      [(imgURL, "MTIzL2FiYy5wbmc=.png".data)] ∧
    '/' ∈ b64encode (utf8Encode ("???.png".data)) :=
  ⟨by decide, by decide, by decide⟩

/-! ## Claims C9, C10 — anchors, table of contents, issue ordering -/

theorem digitChar_isDigit (m : Nat) : (digitChar m).isDigit = true := by
  rcases m with _|_|_|_|_|_|_|_|_|m <;> rfl

theorem natStr_isDigit (n : Nat) : ∀ c ∈ natStr n, c.isDigit = true := by
  induction n using Nat.strong_induction_on with
  | _ n ih =>
    rw [natStr]
    split
    · intro c hc
      simp only [List.mem_singleton] at hc
      subst hc
      exact digitChar_isDigit n
    · intro c hc
      rcases List.mem_append.mp hc with h | h
      · exact ih (n / 10) (Nat.div_lt_self (by omega) (by omega)) c h
      · simp only [List.mem_singleton] at h
        subst h
        exact digitChar_isDigit (n % 10)

theorem isDigit_ne_quote {c : Char} (h : c.isDigit = true) : c ≠ '"' := by
  intro he; subst he; exact absurd h (by decide)

theorem isDigit_ne_hash {c : Char} (h : c.isDigit = true) : c ≠ '#' := by
  intro he; subst he; exact absurd h (by decide)

theorem isPrefixOf_append_self (m x : Str) : m.isPrefixOf (m ++ x) = true :=
  List.isPrefixOf_iff_prefix.mpr (List.prefix_append m x)

theorem afterFirst_append_self (m x : Str) (hm : m ≠ []) :
    afterFirst m (m ++ x) = some x := by
  match m, hm with
  | c :: m', _ =>
    show afterFirst (c :: m') (c :: (m' ++ x)) = some x
    simp only [afterFirst]
    rw [if_pos (show (c :: m').isPrefixOf (c :: (m' ++ x)) = true from
      isPrefixOf_append_self (c :: m') x)]
    rw [show c :: (m' ++ x) = (c :: m') ++ x from rfl, List.drop_left]

/-- If the marker does not match at the head, `afterFirst` just moves on. -/
theorem afterFirst_cons_of_no_match {m : Str} {c : Char} {t : Str}
    (h : m.isPrefixOf (c :: t) = false) :
    afterFirst m (c :: t) = afterFirst m t := by
  simp only [afterFirst]
  rw [if_neg (by simp [h])]

theorem takeWhile_all_append (p : Char → Bool) (a b : Str)
    (ha : ∀ c ∈ a, p c = true) :
    (a ++ b).takeWhile p = a ++ b.takeWhile p := by
  rw [List.takeWhile_append, if_pos]
  rw [List.takeWhile_eq_self_iff.mpr ha]

/-- The anchor emitted for a level-2 header with a digit-only link parses
back to exactly that link. -/
theorem anchorNameOf_issueHeader (n : Nat) (title state : Str) :
    anchorNameOf (issueHeader none n title state) = some (natStr n) := by
  have hmarker : ("<a name=\"".data).isPrefixOf
      ('\n' :: ("<a name=\"".data ++ (natStr n ++ ("\"></a>".data
        ++ ('#' :: natStr n ++ ": ".data ++ title ++ " (".data ++ state ++ [')'])
        ++ '\n' :: List.replicate ('#' :: natStr n ++ ": ".data ++ title
          ++ " (".data ++ state ++ [')']).length '-')))) = false := by
    rfl
  show anchorNameOf ('\n' :: ("<a name=\"".data ++ natStr n ++ "\"></a>".data
    ++ ('#' :: natStr n ++ ": ".data ++ title ++ " (".data ++ state ++ [')'])
    ++ '\n' :: List.replicate ('#' :: natStr n ++ ": ".data ++ title
      ++ " (".data ++ state ++ [')']).length '-')) = some (natStr n)
  unfold anchorNameOf
  rw [show ("<a name=\"".data ++ natStr n ++ "\"></a>".data
    ++ ('#' :: natStr n ++ ": ".data ++ title ++ " (".data ++ state ++ [')'])
    ++ '\n' :: List.replicate ('#' :: natStr n ++ ": ".data ++ title
      ++ " (".data ++ state ++ [')']).length '-')
    = "<a name=\"".data ++ (natStr n ++ ('"' :: ("></a>".data
    ++ ('#' :: natStr n ++ ": ".data ++ title ++ " (".data ++ state ++ [')'])
    ++ '\n' :: List.replicate ('#' :: natStr n ++ ": ".data ++ title
      ++ " (".data ++ state ++ [')']).length '-'))) from by simp]
  rw [afterFirst_cons_of_no_match (by exact hmarker)]
  rw [afterFirst_append_self _ _ (by decide)]
  simp only [Option.map_some']
  congr 1
  rw [takeWhile_all_append _ (natStr n) _ (fun c hc => by
    simp only [bne_iff_ne, ne_eq, decide_eq_true_eq]
    exact isDigit_ne_quote (natStr_isDigit n c hc))]
  rw [show List.takeWhile (fun c => c != '"') ('"' :: ("></a>".data
    ++ ('#' :: natStr n ++ ": ".data ++ title ++ " (".data ++ state ++ [')'])
    ++ '\n' :: List.replicate ('#' :: natStr n ++ ": ".data ++ title
      ++ " (".data ++ state ++ [')']).length '-')) = [] from rfl]
  simp

/-- The table-of-contents entry for a digit-only issue number parses back to
exactly that number string. -/
theorem fragOf_tocEntry (n : Nat) (title : Str) :
    fragOf (tocEntryOf n title) = some (natStr n) := by
  unfold fragOf tocEntryOf
  rw [show "* [".data ++ natStr n ++ ": ".data ++ title ++ "](#".data
      ++ natStr n ++ [')']
    = ("* [".data ++ natStr n ++ ": ".data ++ title ++ "](#".data
      ++ natStr n) ++ [')'] from by simp]
  rw [List.reverse_append]
  simp only [List.reverse_singleton, List.singleton_append]
  rw [show ("* [".data ++ natStr n ++ ": ".data ++ title ++ "](#".data
      ++ natStr n).reverse
    = (natStr n).reverse ++ ('#' :: ("(]".data ++ title.reverse
      ++ " :".data ++ (natStr n).reverse ++ "[ *".data)) from by
    simp [List.reverse_append]]
  rw [if_pos (by simp)]
  congr 1
  rw [takeWhile_all_append _ ((natStr n).reverse) _ (fun c hc => by
    simp only [bne_iff_ne, ne_eq, decide_eq_true_eq]
    exact isDigit_ne_hash (natStr_isDigit n c (List.mem_reverse.mp hc)))]
  rw [show List.takeWhile (fun c => c != '#') ('#' :: ("(]".data
      ++ title.reverse ++ " :".data ++ (natStr n).reverse ++ "[ *".data))
    = [] from rfl]
  simp

/-- C9: in full-repository mode, the anchor name emitted in an issue's
level-2 header and the fragment target of the table-of-contents entry for
the same issue both parse to the decimal issue number, hence they agree
(the anchor/link round trip). -/
theorem anchor_toc_round_trip (n : Nat) (title state : Str) :
    anchorNameOf (issueHeader none n title state) = some (natStr n) ∧
    fragOf (tocEntryOf n title) = some (natStr n) ∧
    anchorNameOf (issueHeader none n title state) = fragOf (tocEntryOf n title) := by
  refine ⟨anchorNameOf_issueHeader n title state, fragOf_tocEntry n title, ?_⟩
  rw [anchorNameOf_issueHeader n title state, fragOf_tocEntry n title]

theorem pyInsert_perm (le : α → α → Bool) (x : α) (l : List α) :
    (pyInsert le x l).Perm (x :: l) := by
  induction l with
  | nil => exact List.Perm.refl _
  | cons y ys ih =>
    simp only [pyInsert]
    split
    · exact List.Perm.refl _
    · exact (ih.cons y).trans (List.Perm.swap x y ys)

theorem pySorted_perm (le : α → α → Bool) (l : List α) :
    (pySorted le l).Perm l := by
  induction l with
  | nil => exact List.Perm.refl _
  | cons x xs ih => exact (pyInsert_perm le x (pySorted le xs)).trans (ih.cons x)

theorem mem_pyInsert {le : α → α → Bool} {x z : α} {l : List α} :
    z ∈ pyInsert le x l ↔ z = x ∨ z ∈ l := by
  rw [(pyInsert_perm le x l).mem_iff, List.mem_cons]

theorem pyInsert_pairwise (le : α → α → Bool)
    (total : ∀ a b, le a b = true ∨ le b a = true)
    (trans : ∀ a b c, le a b = true → le b c = true → le a c = true)
    (x : α) (l : List α) (hl : l.Pairwise (fun a b => le a b = true)) :
    (pyInsert le x l).Pairwise (fun a b => le a b = true) := by
  induction l with
  | nil => simp [pyInsert]
  | cons y ys ih =>
    rw [List.pairwise_cons] at hl
    obtain ⟨hy, hys⟩ := hl
    simp only [pyInsert]
    split
    · rename_i hxy
      rw [List.pairwise_cons]
      refine ⟨?_, List.pairwise_cons.mpr ⟨hy, hys⟩⟩
      intro z hz
      rcases List.mem_cons.mp hz with h | h
      · subst h; exact hxy
      · exact trans x y z hxy (hy z h)
    · rename_i hxy
      have hyx : le y x = true := by
        rcases total x y with h | h
        · exact absurd h hxy
        · exact h
      rw [List.pairwise_cons]
      refine ⟨?_, ih hys⟩
      intro z hz
      rcases mem_pyInsert.mp hz with h | h
      · subst h; exact hyx
      · exact hy z h

theorem pySorted_pairwise (le : α → α → Bool)
    (total : ∀ a b, le a b = true ∨ le b a = true)
    (trans : ∀ a b c, le a b = true → le b c = true → le a c = true)
    (l : List α) : (pySorted le l).Pairwise (fun a b => le a b = true) := by
  induction l with
  | nil => simp [pySorted]
  | cons x xs ih => exact pyInsert_pairwise le total trans x _ ih

theorem numberLe_total (a b : RIssue) : numberLe a b = true ∨ numberLe b a = true := by
  simp only [numberLe, decide_eq_true_eq]
  omega

theorem numberLe_trans (a b c : RIssue) (h1 : numberLe a b = true)
    (h2 : numberLe b c = true) : numberLe a c = true := by
  simp only [numberLe, decide_eq_true_eq] at h1 h2 ⊢
  omega

/-- C10: the table-of-contents entries and the per-issue headers traverse
the same number-sorted issue sequence, so their parsed issue numbers agree
position by position; that shared sequence is ascending by number (strictly
so when numbers are distinct), is a permutation of the input, and does not
depend on the input's fetch order. -/
theorem toc_and_sections_sorted_by_number (data : List RIssue) :
    ((pySorted numberLe data).map
        (fun i => fragOf (tocEntryOf i.number i.title))) =
      ((pySorted numberLe data).map
        (fun i => anchorNameOf (issueHeader none i.number i.title i.state))) ∧
    ((pySorted numberLe data).map
        (fun i => fragOf (tocEntryOf i.number i.title))) =
      ((pySorted numberLe data).map (fun i => some (natStr i.number))) ∧
    ((pySorted numberLe data).map (fun i => i.number)).Pairwise (· ≤ ·) ∧
    (pySorted numberLe data).Perm data ∧
    (∀ data', data.Perm data' →
      (pySorted numberLe data).map (fun i => i.number) =
        (pySorted numberLe data').map (fun i => i.number)) ∧
    ((data.map (fun i => i.number)).Pairwise (· ≠ ·) →
      ((pySorted numberLe data).map (fun i => i.number)).Pairwise (· < ·)) := by
  have hpair : ((pySorted numberLe data).map (fun i => i.number)).Pairwise (· ≤ ·) := by
    rw [List.pairwise_map]
    exact (pySorted_pairwise numberLe numberLe_total numberLe_trans data).imp
      (fun h => by simpa [numberLe] using h)
  have hperm := pySorted_perm numberLe data
  refine ⟨?_, ?_, hpair, hperm, ?_, ?_⟩
  · exact List.map_congr_left (fun i _ => by
      rw [fragOf_tocEntry, anchorNameOf_issueHeader])
  · exact List.map_congr_left (fun i _ => by rw [fragOf_tocEntry])
  · intro data' hdd
    have h1 : ((pySorted numberLe data).map (fun i => i.number)).Perm
        ((pySorted numberLe data').map (fun i => i.number)) := by
      exact List.Perm.map _ (hperm.trans (hdd.trans (pySorted_perm numberLe data').symm))
    have h2 : ((pySorted numberLe data').map (fun i => i.number)).Pairwise (· ≤ ·) := by
      rw [List.pairwise_map]
      exact (pySorted_pairwise numberLe numberLe_total numberLe_trans data').imp
        (fun h => by simpa [numberLe] using h)
    exact List.eq_of_perm_of_sorted h1 hpair h2
  · intro hdist
    have hne : ((pySorted numberLe data).map (fun i => i.number)).Pairwise (· ≠ ·) := by
      rw [(List.Perm.map (fun i => i.number) hperm).pairwise_iff
        (fun h => Ne.symm h)]
      exact hdist
    exact (hpair.and hne).imp (fun h => lt_of_le_of_ne h.1 h.2)

/-- Two concrete issues (only the fields relevant to ordering differ). -/
def cRIssueA : RIssue :=
  { number := 3, title := "A".data, body := "a".data, state := "open".data,
    user := "u".data, created_at := "2020-01-01T00:00:00Z".data,
    closed_at := none, pull_request := false, comments := [], events := [],
    reviews := none, review_comments := [], files := [] }

def cRIssueB : RIssue :=
  { cRIssueA with number := 5, title := "B".data }

theorem toc_and_sections_sorted_by_number_witness :
    (pySorted numberLe [cRIssueB, cRIssueA]).Perm [cRIssueB, cRIssueA] ∧
    (pySorted numberLe [cRIssueB, cRIssueA]).map (fun i => i.number) =
      (pySorted numberLe [cRIssueA, cRIssueB]).map (fun i => i.number) ∧
    ((pySorted numberLe [cRIssueB, cRIssueA]).map (fun i => i.number)).Pairwise (· < ·) := by
  have h := toc_and_sections_sorted_by_number [cRIssueB, cRIssueA]
  exact ⟨h.2.2.2.1,
    h.2.2.2.2.1 [cRIssueA, cRIssueB] (List.Perm.swap cRIssueA cRIssueB []),
    h.2.2.2.2.2 (by decide)⟩

/-! ## Claim C1 — activity feed -/

theorem strLe_total : ∀ a b : Str, strLe a b = true ∨ strLe b a = true := by
  intro a
  induction a with
  | nil => intro b; left; rfl
  | cons x xs ih =>
    intro b
    cases b with
    | nil => right; rfl
    | cons y ys =>
      by_cases hxy : x = y
      · subst hxy
        simp only [strLe, if_pos rfl]
        exact ih ys
      · simp only [strLe, if_neg hxy, if_neg (Ne.symm hxy)]
        have hne : x.toNat ≠ y.toNat := fun h =>
          hxy (Char.eq_of_val_eq (UInt32.ext h))
        rcases Nat.lt_or_ge x.toNat y.toNat with h | h
        · left; exact decide_eq_true h
        · right; exact decide_eq_true (by omega)

theorem strLe_trans : ∀ a b c : Str, strLe a b = true → strLe b c = true →
    strLe a c = true := by
  intro a
  induction a with
  | nil => intro b c _ _; rfl
  | cons x xs ih =>
    intro b c h1 h2
    cases b with
    | nil => simp [strLe] at h1
    | cons y ys =>
      cases c with
      | nil => simp [strLe] at h2
      | cons z zs =>
        simp only [strLe] at h1 h2 ⊢
        by_cases hxy : x = y
        · subst hxy
          rw [if_pos rfl] at h1
          by_cases hyz : x = z
          · subst hyz; rw [if_pos rfl] at h2 ⊢; exact ih ys zs h1 h2
          · rw [if_neg hyz] at h2 ⊢; exact h2
        · rw [if_neg hxy] at h1
          replace h1 := of_decide_eq_true h1
          by_cases hyz : y = z
          · subst hyz; rw [if_neg hxy]; exact decide_eq_true h1
          · rw [if_neg hyz] at h2
            replace h2 := of_decide_eq_true h2
            have hlt : x.toNat < z.toNat := by omega
            have hxz : x ≠ z := by
              intro h; subst h; omega
            rw [if_neg hxz]
            exact decide_eq_true hlt

theorem feedLe_total (a b : FeedItem) : feedLe a b = true ∨ feedLe b a = true :=
  strLe_total a.created_at b.created_at

theorem feedLe_trans (a b c : FeedItem) (h1 : feedLe a b = true)
    (h2 : feedLe b c = true) : feedLe a c = true :=
  strLe_trans a.created_at b.created_at c.created_at h1 h2

/-- `[hr] ++ block` for every block: the tail of the separator-joined feed. -/
def hrTail : List (List Str) → List Str
  | [] => []
  | b :: bs => (mkdown_hr :: b) ++ hrTail bs

/-- Blocks joined with a single horizontal rule between consecutive blocks
and none before the first. -/
def hrJoin : List (List Str) → List Str
  | [] => []
  | b :: bs => b ++ hrTail bs

/-- The nonempty rendered blocks of the non-skipped items of a feed. -/
def renderedBlocks (l : List FeedItem) : List (List Str) :=
  ((l.filter (fun it => it.body != some [])).map renderItemBlocks).filter
    (fun b => b != [])


theorem feedLoop_false (l : List FeedItem) :
    feedLoop false l = hrTail (renderedBlocks l) := by
  induction l with
  | nil => rfl
  | cons it rest ih =>
    by_cases hbody : it.body = some []
    · rw [show feedLoop false (it :: rest) = feedLoop false rest from by
        simp [feedLoop, hbody]]
      rw [show renderedBlocks (it :: rest) = renderedBlocks rest from by
        simp [renderedBlocks, List.filter_cons, hbody]]
      exact ih
    · by_cases hblk : renderItemBlocks it = []
      · rw [show feedLoop false (it :: rest) = feedLoop false rest from by
          simp [feedLoop, hbody, hblk]]
        rw [show renderedBlocks (it :: rest) = renderedBlocks rest from by
          simp [renderedBlocks, List.filter_cons, hbody, hblk]]
        exact ih
      · rw [show feedLoop false (it :: rest)
            = mkdown_hr :: (renderItemBlocks it ++ feedLoop false rest) from by
          simp [feedLoop, hbody, hblk]]
        rw [show renderedBlocks (it :: rest)
            = renderItemBlocks it :: renderedBlocks rest from by
          simp [renderedBlocks, List.filter_cons, hbody, hblk]]
        simp only [hrTail]
        rw [← ih]
        simp

theorem feedLoop_true (l : List FeedItem) :
    feedLoop true l = hrJoin (renderedBlocks l) := by
  induction l with
  | nil => rfl
  | cons it rest ih =>
    by_cases hbody : it.body = some []
    · rw [show feedLoop true (it :: rest) = feedLoop true rest from by
        simp [feedLoop, hbody]]
      rw [show renderedBlocks (it :: rest) = renderedBlocks rest from by
        simp [renderedBlocks, List.filter_cons, hbody]]
      exact ih
    · by_cases hblk : renderItemBlocks it = []
      · rw [show feedLoop true (it :: rest) = feedLoop true rest from by
          simp [feedLoop, hbody, hblk]]
        rw [show renderedBlocks (it :: rest) = renderedBlocks rest from by
          simp [renderedBlocks, List.filter_cons, hbody, hblk]]
        exact ih
      · rw [show feedLoop true (it :: rest)
            = renderItemBlocks it ++ feedLoop false rest from by
          simp [feedLoop, hbody, hblk]]
        rw [show renderedBlocks (it :: rest)
            = renderItemBlocks it :: renderedBlocks rest from by
          simp [renderedBlocks, List.filter_cons, hbody, hblk]]
        rw [feedLoop_false rest]
        rfl

/-- The specification's own example issue (repository example in spec §8):
plain issue 42 "Crash on startup", open, body "It crashes.", one comment by
`bob`.  It is not a pull request, so `get_json` never sets its `reviews`
key: `reviews := none`. -/
def cComment42 : FeedItem :=
  { created_at := "2020-01-01T00:00:00Z".data, user := some ("bob".data),
    body := some ("Can confirm.".data) }

def cIssue42 : RIssue :=
  { number := 42, title := "Crash on startup".data,
    body := "It crashes.".data, state := "open".data, user := "alice".data,
    created_at := "2019-12-31T00:00:00Z".data, closed_at := none,
    pull_request := false, comments := [cComment42], events := [],
    reviews := none, review_comments := [], files := [] }

/-- C1 (code bug): the renderer the claim describes exists only for issues
that carry a `reviews` key.  `get_json` sets `issue['reviews']` only for
pull requests (source line 97), yet source line 240 indexes it for every
issue, so rendering any plain issue — the spec's own issue-42 example
included — raises `KeyError` instead of emitting a feed.  When the key is
present, the feed is exactly the claim's shape: the stable
timestamp-ascending merge of comments, events and reviews, empty-body
items skipped, rendered blocks separated by single horizontal rules with
none before the first. -/
theorem activity_feed_shape :
    (∀ i : RIssue, activityFeed { i with reviews := none } =
      Except.error ("KeyError: 'reviews'".data)) ∧
    activityFeed cIssue42 = Except.error ("KeyError: 'reviews'".data) ∧
    issueSection (some 42) cIssue42 =
      Except.error ("KeyError: 'reviews'".data) ∧
    build_markdown (some 42) ("acme/widgets".data) [cIssue42] =
      Except.error ("KeyError: 'reviews'".data) ∧
    (∀ (i : RIssue) (rvs : List FeedItem),
      activityFeed { i with reviews := some rvs } =
        Except.ok (hrJoin (renderedBlocks
          (pySorted feedLe (i.comments ++ i.events ++ rvs))))) ∧
    (∀ (it : FeedItem) (rest : List FeedItem) (b : Bool),
      feedLoop b ({ it with body := some [] } :: rest) = feedLoop b rest) ∧
    (∀ l : List FeedItem,
      (pySorted feedLe l).Pairwise
        (fun a b => strLe a.created_at b.created_at = true)) ∧
    (∀ l : List FeedItem, (pySorted feedLe l).Perm l) ∧
    (∀ i : RIssue,
      activityFeed { i with comments := [], events := [], reviews := some [] }
        = Except.ok []) ∧
    feedLoop true (pySorted feedLe [cComment42]) =
      [mkdown_h ("(2020-01-01T00:00:00Z) bob:".data) 4 none,
       mkdown_p ("Can confirm.".data)] := by
  refine ⟨fun i => rfl, rfl, rfl, rfl, ?_, ?_, ?_, ?_, fun i => rfl, by decide⟩
  · intro i rvs
    rw [show activityFeed { i with reviews := some rvs }
      = Except.ok (feedLoop true
        (pySorted feedLe (i.comments ++ i.events ++ rvs))) from rfl]
    rw [feedLoop_true]
  · intro it rest b
    simp [feedLoop]
  · intro l
    exact pySorted_pairwise feedLe feedLe_total feedLe_trans l
  · intro l
    exact pySorted_perm feedLe l

/-! ## Claim C2 — fence parity in interleaved review comments -/

theorem splitNL_ne_nil (s : Str) : splitNL s ≠ [] := by
  cases s with
  | nil => simp [splitNL]
  | cons c t =>
    simp only [splitNL]
    split
    · simp
    · split
      · simp
      · simp

theorem splitNL_no_nl {a : Str} (h : ('\n' : Char) ∉ a) : splitNL a = [a] := by
  induction a with
  | nil => rfl
  | cons c t ih =>
    simp only [List.mem_cons, not_or] at h
    obtain ⟨hc, ht⟩ := h
    simp only [splitNL]
    rw [if_neg (Ne.symm hc)]
    rw [ih ht]

theorem splitNL_cons_nl (x : Str) : splitNL ('\n' :: x) = [] :: splitNL x := by
  simp [splitNL]

theorem splitNL_cons_other {c : Char} (hc : c ≠ '\n') (x : Str) :
    splitNL (c :: x) =
      match splitNL x with
      | [] => [[c]]
      | l :: ls => (c :: l) :: ls := by
  simp [splitNL, hc]

theorem splitNL_append (a b : Str) :
    splitNL (a ++ '\n' :: b) = splitNL a ++ splitNL b := by
  induction a with
  | nil =>
    rw [List.nil_append, splitNL_cons_nl]
    rfl
  | cons c t ih =>
    by_cases hc : c = '\n'
    · subst hc
      rw [show ('\n' :: t) ++ '\n' :: b = '\n' :: (t ++ '\n' :: b) from rfl]
      rw [splitNL_cons_nl, splitNL_cons_nl, ih]
      rfl
    · cases hs : splitNL t with
      | nil => exact absurd hs (splitNL_ne_nil t)
      | cons l ls =>
        have h2 : splitNL (t ++ '\n' :: b) = l :: (ls ++ splitNL b) := by
          rw [ih, hs]; rfl
        rw [show (c :: t) ++ '\n' :: b = c :: (t ++ '\n' :: b) from rfl]
        rw [splitNL_cons_other hc, h2, splitNL_cons_other hc, hs]
        rfl

theorem mem_splitNL_no_nl (s : Str) : ∀ l ∈ splitNL s, ('\n' : Char) ∉ l := by
  induction s with
  | nil =>
    intro l hl
    simp only [splitNL, List.mem_singleton] at hl
    subst hl; simp
  | cons c t ih =>
    intro l hl
    simp only [splitNL] at hl
    by_cases hc : c = '\n'
    · rw [if_pos hc] at hl
      rcases List.mem_cons.mp hl with h | h
      · subst h; simp
      · exact ih l h
    · rw [if_neg hc] at hl
      cases hs : splitNL t with
      | nil => exact absurd hs (splitNL_ne_nil t)
      | cons x xs =>
        rw [hs] at hl
        rcases List.mem_cons.mp hl with h | h
        · subst h
          intro hmem
          rcases List.mem_cons.mp hmem with h | h
          · exact hc h.symm
          · exact ih x (by rw [hs]; exact List.mem_cons_self x xs) h
        · exact ih l (by rw [hs]; exact List.mem_cons.mpr (Or.inr h))

theorem splitNL_joinNL (es : List Str) (hne : es ≠ []) :
    splitNL (joinNL es) = flatSplit es := by
  induction es with
  | nil => exact absurd rfl hne
  | cons e es ih =>
    cases es with
    | nil => simp [joinNL, flatSplit]
    | cons f fs =>
      rw [show joinNL (e :: f :: fs) = e ++ '\n' :: joinNL (f :: fs) from rfl]
      rw [splitNL_append, ih (by simp)]
      rfl

theorem mem_flatSplit {pl : Str} {es : List Str} (h : pl ∈ flatSplit es) :
    ∃ e ∈ es, pl ∈ splitNL e := by
  induction es with
  | nil => cases h
  | cons e es ih =>
    rcases List.mem_append.mp h with h | h
    · exact ⟨e, List.mem_cons_self e es, h⟩
    · obtain ⟨e', he', hpl⟩ := ih h
      exact ⟨e', List.mem_cons.mpr (Or.inr he'), hpl⟩

theorem pyStrip_no_nl {l : Str} (h : ('\n' : Char) ∉ l) :
    ('\n' : Char) ∉ pyStrip l := by
  intro hmem
  apply h
  unfold pyStrip at hmem
  rw [List.mem_reverse] at hmem
  have h1 := (@List.dropWhile_sublist Char
    ((l.dropWhile isPySpace).reverse) isPySpace).mem hmem
  rw [List.mem_reverse] at h1
  exact (@List.dropWhile_sublist Char l isPySpace).mem h1

theorem mem_splitlinesPy_no_nl (s : Str) :
    ∀ l ∈ splitlinesPy s, ('\n' : Char) ∉ l := by
  intro l hl
  unfold splitlinesPy at hl
  split at hl
  · cases hl
  · split at hl
    · exact mem_splitNL_no_nl s l (List.dropLast_subset _ hl)
    · exact mem_splitNL_no_nl s l hl

/-- Every physical line of a blockquote starts with `>` or is empty, so it
is never a code fence. -/
theorem blockquote_no_fence (t : Str) :
    ∀ pl ∈ splitNL (mkdown_blockquote t), isFence pl = false := by
  intro pl hpl
  unfold mkdown_blockquote at hpl
  cases hls : (splitlinesPy t).map (fun l => '>' :: ' ' :: pyStrip l) with
  | nil =>
    rw [hls] at hpl
    simp only [joinNL, splitNL, List.mem_singleton] at hpl
    subst hpl; rfl
  | cons e es =>
    rw [hls] at hpl
    rw [splitNL_joinNL _ (by simp)] at hpl
    obtain ⟨e', he', hpl⟩ := mem_flatSplit hpl
    rw [← hls] at he'
    obtain ⟨l0, hl0, he'eq⟩ := List.mem_map.mp he'
    subst he'eq
    have hnl : ('\n' : Char) ∉ '>' :: ' ' :: pyStrip l0 := by
      intro hm
      rcases List.mem_cons.mp hm with h | h
      · cases h
      · rcases List.mem_cons.mp h with h | h
        · cases h
        · exact pyStrip_no_nl (mem_splitlinesPy_no_nl t l0 hl0) h
    rw [splitNL_no_nl hnl, List.mem_singleton] at hpl
    subst hpl
    rfl

/-- No physical line of the block-quoted comment entries is a code fence. -/
theorem commentEntries_no_fence (cs : List RComment) :
    ∀ pl ∈ flatSplit (commentEntries cs), isFence pl = false := by
  intro pl hpl
  obtain ⟨e, he, hpl⟩ := mem_flatSplit hpl
  unfold commentEntries at he
  obtain ⟨c, _, he⟩ := List.mem_flatMap.mp he
  have : ∃ t, e = mkdown_blockquote t := by
    rcases List.mem_cons.mp he with h | h
    · exact ⟨mkdown_hr, h⟩
    · rcases List.mem_cons.mp h with h | h
      · exact ⟨_, h⟩
      · rcases List.mem_cons.mp h with h | h
        · exact ⟨_, h⟩
        · cases h
  obtain ⟨t, rfl⟩ := this
  exact blockquote_no_fence t pl hpl

def fenceFlip (b : Bool) (l : Str) : Bool := if isFence l then !b else b

def fenceFold (b : Bool) (ls : List Str) : Bool := ls.foldl fenceFlip b

theorem fenceFold_append (b : Bool) (xs ys : List Str) :
    fenceFold b (xs ++ ys) = fenceFold (fenceFold b xs) ys := by
  unfold fenceFold
  rw [List.foldl_append]

theorem fenceFold_no_fence {b : Bool} {ls : List Str}
    (h : ∀ l ∈ ls, isFence l = false) : fenceFold b ls = b := by
  induction ls generalizing b with
  | nil => rfl
  | cons l ls ih =>
    rw [show fenceFold b (l :: ls) = fenceFold (fenceFlip b l) ls from rfl]
    rw [show fenceFlip b l = b from by
      simp [fenceFlip, h l (List.mem_cons_self l ls)]]
    exact ih (fun x hx => h x (List.mem_cons.mpr (Or.inr hx)))

theorem flatSplit_append (xs ys : List Str) :
    flatSplit (xs ++ ys) = flatSplit xs ++ flatSplit ys := by
  induction xs with
  | nil => rfl
  | cons e es ih =>
    rw [show (e :: es) ++ ys = e :: (es ++ ys) from rfl]
    rw [show flatSplit (e :: (es ++ ys)) = splitNL e ++ flatSplit (es ++ ys)
      from rfl]
    rw [ih]
    rw [show flatSplit (e :: es) = splitNL e ++ flatSplit es from rfl]
    rw [List.append_assoc]

/-- The `codeblock` state update of one line (source lines 211-215). -/
def stepCB (cb : Option Str) (line : Str) : Option Str :=
  if isFence line then (if cb.isSome then none else some line) else cb

/-- The entries inserted after one content line (source lines 217-234):
nothing without anchored comments; otherwise a closing fence when a block
is open, the block-quoted comments, and the reopened original fence line. -/
def segOf (cmts : Nat → List RComment) (cb' : Option Str) (n : Nat) : List Str :=
  if cmts n = [] then []
  else
    (match cb' with
     | some _ => [("```".data : Str)]
     | none => []) ++
    commentEntries (cmts n) ++
    (match cb' with
     | some op => [op]
     | none => [])

theorem renderContentLoop_cons (cmts : Nat → List RComment) (cb : Option Str)
    (n : Nat) (line : Str) (rest : List Str) :
    renderContentLoop cmts cb n (line :: rest) =
      (line :: segOf cmts (stepCB cb line) n)
        ++ renderContentLoop cmts (stepCB cb line) (n + 1) rest := rfl

theorem stepCB_isSome (cb : Option Str) (line : Str) :
    (stepCB cb line).isSome = fenceFlip cb.isSome line := by
  cases hf : isFence line <;> cases cb <;> simp [stepCB, fenceFlip, hf]

theorem segOf_fold (cmts : Nat → List RComment) (cb' : Option Str) (n : Nat)
    (hcb' : ∀ l, cb' = some l → isFence l = true ∧ ('\n' : Char) ∉ l) :
    fenceFold cb'.isSome (flatSplit (segOf cmts cb' n)) = cb'.isSome := by
  unfold segOf
  split
  · rfl
  · cases cb' with
    | none =>
      simp only [List.nil_append, List.append_nil]
      exact fenceFold_no_fence (commentEntries_no_fence (cmts n))
    | some op =>
      obtain ⟨hop, hopnl⟩ := hcb' op rfl
      rw [show (([("```".data : Str)]) ++ commentEntries (cmts n) ++ [op])
        = [("```".data : Str)] ++ (commentEntries (cmts n) ++ [op]) from by
        rw [List.append_assoc]]
      rw [flatSplit_append, flatSplit_append]
      rw [fenceFold_append, fenceFold_append]
      rw [show flatSplit [("```".data : Str)] = [("```".data : Str)] from rfl]
      rw [show flatSplit [op] = splitNL op ++ [] from rfl]
      rw [splitNL_no_nl hopnl]
      rw [show fenceFold (Option.isSome (some op)) [("```".data : Str)]
        = false from rfl]
      rw [fenceFold_no_fence (commentEntries_no_fence (cmts n))]
      show fenceFold false ([op] ++ []) = true
      rw [List.append_nil]
      show fenceFlip false op = true
      simp [fenceFlip, hop]

theorem renderLoop_parity (cmts : Nat → List RComment) :
    ∀ (ls : List Str) (cb : Option Str) (n : Nat),
      (∀ l, cb = some l → isFence l = true ∧ ('\n' : Char) ∉ l) →
      (∀ l ∈ ls, ('\n' : Char) ∉ l) →
      fenceFold cb.isSome (flatSplit (renderContentLoop cmts cb n ls)) =
        fenceFold cb.isSome ls := by
  intro ls
  induction ls with
  | nil => intro cb n _ _; rfl
  | cons line rest ih =>
    intro cb n hcb hnl
    have hlinenl : ('\n' : Char) ∉ line := hnl line (List.mem_cons_self _ _)
    have hcb' : ∀ l, stepCB cb line = some l →
        isFence l = true ∧ ('\n' : Char) ∉ l := by
      intro l hl
      unfold stepCB at hl
      by_cases hf : isFence line
      · rw [if_pos hf] at hl
        cases cb with
        | none =>
          simp only [Option.isSome_none, Bool.false_eq_true, if_false,
            Option.some.injEq] at hl
          subst hl
          exact ⟨hf, hlinenl⟩
        | some _ => simp at hl
      · rw [if_neg hf] at hl
        exact hcb l hl
    rw [renderContentLoop_cons]
    rw [show (line :: segOf cmts (stepCB cb line) n)
        ++ renderContentLoop cmts (stepCB cb line) (n + 1) rest
      = line :: (segOf cmts (stepCB cb line) n
        ++ renderContentLoop cmts (stepCB cb line) (n + 1) rest) from rfl]
    rw [show flatSplit (line :: (segOf cmts (stepCB cb line) n
        ++ renderContentLoop cmts (stepCB cb line) (n + 1) rest))
      = splitNL line ++ flatSplit (segOf cmts (stepCB cb line) n
        ++ renderContentLoop cmts (stepCB cb line) (n + 1) rest) from rfl]
    rw [flatSplit_append, splitNL_no_nl hlinenl]
    rw [fenceFold_append, fenceFold_append]
    rw [show fenceFold cb.isSome [line] = fenceFlip cb.isSome line from rfl]
    rw [← stepCB_isSome]
    rw [segOf_fold cmts (stepCB cb line) n hcb']
    rw [ih (stepCB cb line) (n + 1) hcb'
      (fun l hl => hnl l (List.mem_cons.mpr (Or.inr hl)))]
    rw [show fenceFold cb.isSome (line :: rest)
      = fenceFold (fenceFlip cb.isSome line) rest from rfl]
    rw [stepCB_isSome]

/-- C2: after a commented line while a fenced block is open, the renderer
emits a closing fence immediately before the block-quoted comments and the
original opening line immediately after them; consequently, from any loop
state whose stored opening line is a real single-line fence, the fence
parity of the emitted physical lines equals the fence parity of the input
lines — every remaining line that was inside (outside) a fenced block stays
inside (outside).  The last conjunct relates the physical lines of the
joined document to the per-entry lines. -/
theorem fence_closed_and_reopened_around_comments :
    (∀ (cmts : Nat → List RComment) (op line : Str) (n : Nat) (rest : List Str),
      isFence line = false → cmts n ≠ [] →
      renderContentLoop cmts (some op) n (line :: rest) =
        line :: ("```".data : Str) ::
          (commentEntries (cmts n) ++ op ::
            renderContentLoop cmts (some op) (n + 1) rest)) ∧
    (∀ (cmts : Nat → List RComment) (cb : Option Str) (n : Nat) (ls : List Str),
      (∀ l, cb = some l → isFence l = true ∧ ('\n' : Char) ∉ l) →
      (∀ l ∈ ls, ('\n' : Char) ∉ l) →
      fenceFold cb.isSome (flatSplit (renderContentLoop cmts cb n ls)) =
        fenceFold cb.isSome ls) ∧
    (∀ es : List Str, es ≠ [] → splitNL (joinNL es) = flatSplit es) := by
  refine ⟨?_, ?_, ?_⟩
  · intro cmts op line n rest hline hcm
    rw [renderContentLoop_cons]
    rw [show stepCB (some op) line = some op from by simp [stepCB, hline]]
    rw [show segOf cmts (some op) n
      = ("```".data : Str) :: (commentEntries (cmts n) ++ [op]) from by
      simp [segOf, hcm]]
    simp
  · intro cmts cb n ls hcb hnl
    exact renderLoop_parity cmts ls cb n hcb hnl
  · intro es hne
    exact splitNL_joinNL es hne

/-- A concrete review comment used by witnesses. -/
def cRC : RComment :=
  { path := "doc/readme.md".data, line := some 1,
    created_at := "2020-01-01T00:00:00Z".data, user := "bob".data,
    body := "Can confirm.".data }

theorem fence_closed_and_reopened_around_comments_witness :
    renderContentLoop (fun _ => [cRC]) (some ("```rust".data)) 1
        ["let x = 1;".data] =
      "let x = 1;".data :: ("```".data : Str) ::
        (commentEntries [cRC] ++ ("```rust".data : Str) ::
          renderContentLoop (fun _ => [cRC]) (some ("```rust".data)) 2 []) ∧
    fenceFold true
        (flatSplit (renderContentLoop (fun _ => [cRC])
          (some ("```rust".data)) 1 ["let x = 1;".data])) =
      fenceFold true ["let x = 1;".data] ∧
    splitNL (joinNL ["a".data, "b".data]) = flatSplit ["a".data, "b".data] := by
  have h := fence_closed_and_reopened_around_comments
  refine ⟨h.1 (fun _ => [cRC]) ("```rust".data) ("let x = 1;".data) 1 []
      (by decide) (by decide), ?_, h.2.2 ["a".data, "b".data] (by decide)⟩
  have h2 := h.2.1 (fun _ => [cRC]) (some ("```rust".data)) 1
    ["let x = 1;".data]
    (fun l hl => by
      rw [Option.some.injEq] at hl
      subst hl
      exact ⟨by decide, by decide⟩)
    (by decide)
  exact h2

/-! ## Claims C7, C8 — aggregator enrichment and frame -/

/-- The review update applied by the aggregator (source lines 102-103). -/
def reviewStamp (v : Review) : Review := { v with created_at := some v.submitted_at }

theorem exbind_ok {α β : Type} (a : α) (f : α → Except Str β) :
    (Except.ok a : Except Str α) >>= f = f a := rfl

theorem get_json_some (env : Env) (n : Nat) :
    get_json env (some n) =
      (Except.map (fun i => [i]) (env.issue n) >>=
        fun base => base.mapM (enrichIssue env)) := rfl

theorem enrichIssue_pr (env : Env) (i0 : AIssue) (rs : List Reaction)
    (cs cs' : List IComment) (es : List IEvent) (rv : List Review)
    (rc : List RComment) (fs fs' : List PullFile)
    (h2 : env.reactions_of i0.number = Except.ok rs)
    (h3 : env.comments_at i0.comments_url = Except.ok cs)
    (h4 : cs.mapM (enrichComment env) = Except.ok cs')
    (h5 : env.events_at i0.events_url = Except.ok es)
    (h6 : i0.pull_request = true)
    (h7 : env.reviews_of i0.number = Except.ok rv)
    (h8 : env.review_comments_of i0.number = Except.ok rc)
    (h9 : env.files_of i0.number = Except.ok fs)
    (h10 : fs.mapM (enrichFile env) = Except.ok fs') :
    enrichIssue env i0 =
      Except.ok { i0 with
        reactions := some rs, comments := some cs', events := some es,
        reviews := some (rv.map reviewStamp), review_comments := some rc,
        files := some fs' } := by
  unfold enrichIssue
  rw [h2]
  simp only [exbind_ok]
  rw [h3]
  simp only [exbind_ok]
  rw [h4]
  simp only [exbind_ok]
  rw [h5]
  simp only [exbind_ok]
  rw [h6]
  simp only [if_true]
  rw [h7]
  simp only [exbind_ok]
  rw [h8]
  simp only [exbind_ok]
  rw [h9]
  simp only [exbind_ok]
  rw [h10]
  simp only [exbind_ok]
  rfl

/-- The non-pull-request branch of the per-issue loop (the fall-through
when `'pull_request' not in issue`, source lines 96 and 114). -/
theorem enrichIssue_plain (env : Env) (i0 : AIssue) (rs : List Reaction)
    (cs cs' : List IComment) (es : List IEvent)
    (h2 : env.reactions_of i0.number = Except.ok rs)
    (h3 : env.comments_at i0.comments_url = Except.ok cs)
    (h4 : cs.mapM (enrichComment env) = Except.ok cs')
    (h5 : env.events_at i0.events_url = Except.ok es)
    (h6 : i0.pull_request = false) :
    enrichIssue env i0 =
      Except.ok { i0 with
        reactions := some rs, comments := some cs', events := some es } := by
  unfold enrichIssue
  rw [h2]
  simp only [exbind_ok]
  rw [h3]
  simp only [exbind_ok]
  rw [h4]
  simp only [exbind_ok]
  rw [h5]
  simp only [exbind_ok]
  rw [h6]
  simp only [Bool.false_eq_true, if_false]
  rfl

/-- Resolving a single issue and enriching it: the whole of `get_json`
for a supplied issue number. -/
theorem get_json_single (env : Env) (n : Nat) (i0 i' : AIssue)
    (h1 : env.issue n = Except.ok i0)
    (h : enrichIssue env i0 = Except.ok i') :
    get_json env (some n) = Except.ok [i'] := by
  rw [get_json_some]
  rw [h1]
  rw [show Except.map (fun i => [i]) (Except.ok i0)
    = (Except.ok [i0] : Except Str (List AIssue)) from rfl]
  simp only [exbind_ok]
  rw [List.mapM_cons, h]
  simp only [exbind_ok]
  rw [List.mapM_nil]
  rfl

/-- C7: with a single issue number supplied, the aggregator returns a
one-element list whose enrichment fields equal exactly the per-endpoint
payloads — reactions, comments (where a comment with a nonzero reaction
total gains the detailed payload of its extra fetch, and one with a zero
total is passed through) and events; a non-pull-request issue gains exactly
those three, and a pull request additionally gains the timestamped reviews,
the review comments and the content-enriched changed files. -/
theorem aggregator_singleton_enrichment
    (env : Env) (n : Nat) (i0 : AIssue) (rs : List Reaction)
    (cs cs' : List IComment) (es : List IEvent)
    (h1 : env.issue n = Except.ok i0)
    (h2 : env.reactions_of i0.number = Except.ok rs)
    (h3 : env.comments_at i0.comments_url = Except.ok cs)
    (h4 : cs.mapM (enrichComment env) = Except.ok cs')
    (h5 : env.events_at i0.events_url = Except.ok es) :
    (i0.pull_request = false →
      get_json env (some n) =
        Except.ok [{ i0 with
          reactions := some rs, comments := some cs', events := some es }]) ∧
    (∀ (rv : List Review) (rc : List RComment) (fs fs' : List PullFile),
      i0.pull_request = true →
      env.reviews_of i0.number = Except.ok rv →
      env.review_comments_of i0.number = Except.ok rc →
      env.files_of i0.number = Except.ok fs →
      fs.mapM (enrichFile env) = Except.ok fs' →
      get_json env (some n) =
        Except.ok [{ i0 with
          reactions := some rs, comments := some cs', events := some es,
          reviews := some (rv.map reviewStamp), review_comments := some rc,
          files := some fs' }]) ∧
    (∀ (c : IComment) (dr : List Reaction), c.reactions.total_count > 0 →
      env.comment_reactions_at c.reactions.url = Except.ok dr →
      enrichComment env c = Except.ok { c with reactions_detailed := some dr }) ∧
    (∀ c : IComment, c.reactions.total_count = 0 →
      enrichComment env c = Except.ok c) := by
  refine ⟨?_, ?_, ?_, ?_⟩
  · intro h6
    exact get_json_single env n i0 _ h1
      (enrichIssue_plain env i0 rs cs cs' es h2 h3 h4 h5 h6)
  · intro rv rc fs fs' h6 h7 h8 h9 h10
    exact get_json_single env n i0 _ h1
      (enrichIssue_pr env i0 rs cs cs' es rv rc fs fs'
        h2 h3 h4 h5 h6 h7 h8 h9 h10)
  · intro c dr hpos hdr
    unfold enrichComment
    rw [if_pos hpos, hdr]
    rfl
  · intro c hzero
    unfold enrichComment
    rw [if_neg (by omega)]
    rfl

/-- Concrete fixtures for the aggregator claims. -/
def cReaction : Reaction := ⟨"+1".data⟩

def cSummary : ReactionSummary := ⟨1, "cr-url".data⟩

def cComment : IComment :=
  { created_at := "2020-01-02T00:00:00Z".data, user := "bob".data,
    body := "Can confirm.".data, reactions := cSummary }

def cCommentD : IComment := { cComment with reactions_detailed := some [cReaction] }

def cReview : Review :=
  { submitted_at := "2020-01-03T00:00:00Z".data, user := "alice".data,
    body := "lgtm".data }

def cFC : FileContent :=
  { name := "readme.md".data, path := "doc/readme.md".data,
    content := "IyBoaQ==".data }

def cFile : PullFile :=
  { name := "readme.md".data, path := "doc/readme.md".data,
    contents_url := "cu".data }

def cFileD : PullFile := { cFile with contents := some cFC }

def cAIssue : AIssue :=
  { number := 7, title := "T".data, body := "B".data, state := "open".data,
    user := "u".data, created_at := "2020-01-01T00:00:00Z".data,
    closed_at := none, comments_url := "cmts".data, events_url := "evts".data,
    pull_request := true }

def cEnv : Env :=
  { issue := fun _ => Except.ok cAIssue,
    issues_all := Except.ok [cAIssue],
    reactions_of := fun _ => Except.ok [cReaction],
    comments_at := fun _ => Except.ok [cComment],
    comment_reactions_at := fun _ => Except.ok [cReaction],
    events_at := fun _ => Except.ok [],
    reviews_of := fun _ => Except.ok [cReview],
    review_comments_of := fun _ => Except.ok [cRC],
    files_of := fun _ => Except.ok [cFile],
    contents_at := fun _ => Except.ok cFC }

/-- The same issue without the `pull_request` marker, and an environment
serving it: a non-pull-request single-issue run. -/
def cAIssuePlain : AIssue := { cAIssue with pull_request := false }

def cEnvPlain : Env := { cEnv with issue := fun _ => Except.ok cAIssuePlain }

theorem aggregator_singleton_enrichment_witness :
    get_json cEnvPlain (some 7) =
      Except.ok [{ cAIssuePlain with
        reactions := some [cReaction], comments := some [cCommentD],
        events := some [] }] ∧
    get_json cEnv (some 7) =
      Except.ok [{ cAIssue with
        reactions := some [cReaction], comments := some [cCommentD],
        events := some [], reviews := some ([cReview].map reviewStamp),
        review_comments := some [cRC], files := some [cFileD] }] ∧
    enrichComment cEnv cComment = Except.ok cCommentD := by
  have hplain := aggregator_singleton_enrichment cEnvPlain 7 cAIssuePlain
    [cReaction] [cComment] [cCommentD] [] rfl rfl rfl rfl rfl
  have hpr := aggregator_singleton_enrichment cEnv 7 cAIssue
    [cReaction] [cComment] [cCommentD] [] rfl rfl rfl rfl rfl
  exact ⟨hplain.1 rfl,
    hpr.2.1 [cReview] [cRC] [cFile] [cFileD] rfl rfl rfl rfl rfl,
    hpr.2.2.1 cComment [cReaction] (by decide) rfl⟩

theorem enrichComment_frame (env : Env) (c c' : IComment)
    (h : enrichComment env c = Except.ok c') :
    c'.created_at = c.created_at ∧ c'.user = c.user ∧ c'.body = c.body ∧
    c'.reactions = c.reactions := by
  unfold enrichComment at h
  split at h
  · cases hcr : env.comment_reactions_at c.reactions.url with
    | error e =>
      rw [hcr] at h
      simp [Except.map] at h
    | ok dr =>
      rw [hcr] at h
      simp only [Except.map] at h
      rw [Except.ok.injEq] at h
      subst h
      exact ⟨rfl, rfl, rfl, rfl⟩
  · rw [show (pure c : Except Str IComment) = Except.ok c from rfl,
      Except.ok.injEq] at h
    subst h
    exact ⟨rfl, rfl, rfl, rfl⟩

theorem enrichFile_frame (env : Env) (f f' : PullFile)
    (h : enrichFile env f = Except.ok f') :
    f'.name = f.name ∧ f'.path = f.path ∧ f'.contents_url = f.contents_url := by
  unfold enrichFile at h
  cases hc : env.contents_at f.contents_url with
  | error e =>
    rw [hc] at h
    simp [Except.map] at h
  | ok c =>
    rw [hc] at h
    simp only [Except.map] at h
    rw [Except.ok.injEq] at h
    subst h
    exact ⟨rfl, rfl, rfl⟩

/-- Inversion of a successful `Except` bind. -/
theorem exbind_eq_ok {α β : Type} {x : Except Str α} {f : α → Except Str β}
    {b : β} (h : x >>= f = Except.ok b) :
    ∃ a, x = Except.ok a ∧ f a = Except.ok b := by
  cases x with
  | error e => exact Except.noConfusion h
  | ok a => exact ⟨a, rfl, h⟩

theorem expure_eq_ok {α : Type} {a b : α}
    (h : (pure a : Except Str α) = Except.ok b) : a = b := by
  rw [show (pure a : Except Str α) = Except.ok a from rfl,
    Except.ok.injEq] at h
  exact h

/-- How one aggregated issue relates to its fetched base: every fetched
field retained, the three collections attached from the fetched payloads,
and — exactly for a pull request — the timestamped reviews, the review
comments and the content-enriched files attached; for a plain issue those
three fields keep their fetch-time values. -/
def IssueFrame (env : Env) (i0 i' : AIssue) : Prop :=
  (i'.number = i0.number ∧ i'.title = i0.title ∧ i'.body = i0.body ∧
    i'.state = i0.state ∧ i'.user = i0.user ∧
    i'.created_at = i0.created_at ∧ i'.closed_at = i0.closed_at ∧
    i'.comments_url = i0.comments_url ∧ i'.events_url = i0.events_url ∧
    i'.pull_request = i0.pull_request) ∧
  (∃ rs, env.reactions_of i0.number = Except.ok rs ∧
    i'.reactions = some rs) ∧
  (∃ cs cs', env.comments_at i0.comments_url = Except.ok cs ∧
    cs.mapM (enrichComment env) = Except.ok cs' ∧ i'.comments = some cs') ∧
  (∃ es, env.events_at i0.events_url = Except.ok es ∧
    i'.events = some es) ∧
  (i0.pull_request = true →
    ∃ rv rc fs fs', env.reviews_of i0.number = Except.ok rv ∧
      i'.reviews = some (rv.map reviewStamp) ∧
      env.review_comments_of i0.number = Except.ok rc ∧
      i'.review_comments = some rc ∧
      env.files_of i0.number = Except.ok fs ∧
      fs.mapM (enrichFile env) = Except.ok fs' ∧ i'.files = some fs') ∧
  (i0.pull_request = false →
    i'.reviews = i0.reviews ∧ i'.review_comments = i0.review_comments ∧
    i'.files = i0.files)

/-- Whenever the per-issue loop succeeds, its output is frame-related to
the fetched issue — pull request or not. -/
theorem enrichIssue_frame (env : Env) (i0 i' : AIssue)
    (h : enrichIssue env i0 = Except.ok i') : IssueFrame env i0 i' := by
  unfold enrichIssue at h
  cases hb : i0.pull_request with
  | true =>
    rw [hb] at h
    obtain ⟨rs, hrs, h⟩ := exbind_eq_ok h
    obtain ⟨cs, hcs, h⟩ := exbind_eq_ok h
    obtain ⟨cs', hcs', h⟩ := exbind_eq_ok h
    obtain ⟨es, hes, h⟩ := exbind_eq_ok h
    obtain ⟨rv, hrv, h⟩ := exbind_eq_ok h
    obtain ⟨rc, hrc, h⟩ := exbind_eq_ok h
    obtain ⟨fs, hfs, h⟩ := exbind_eq_ok h
    obtain ⟨fs', hfs', h⟩ := exbind_eq_ok h
    replace h := expure_eq_ok h
    subst h
    exact ⟨⟨rfl, rfl, rfl, rfl, rfl, rfl, rfl, rfl, rfl, hb.symm⟩,
      ⟨rs, hrs, rfl⟩, ⟨cs, cs', hcs, hcs', rfl⟩, ⟨es, hes, rfl⟩,
      fun _ => ⟨rv, rc, fs, fs', hrv, rfl, hrc, rfl, hfs, hfs', rfl⟩,
      fun hf => absurd (hf.symm.trans hb) (by decide)⟩
  | false =>
    rw [hb] at h
    obtain ⟨rs, hrs, h⟩ := exbind_eq_ok h
    obtain ⟨cs, hcs, h⟩ := exbind_eq_ok h
    obtain ⟨cs', hcs', h⟩ := exbind_eq_ok h
    obtain ⟨es, hes, h⟩ := exbind_eq_ok h
    replace h := expure_eq_ok h
    subst h
    exact ⟨⟨rfl, rfl, rfl, rfl, rfl, rfl, rfl, rfl, rfl, hb.symm⟩,
      ⟨rs, hrs, rfl⟩, ⟨cs, cs', hcs, hcs', rfl⟩, ⟨es, hes, rfl⟩,
      fun ht => absurd (ht.symm.trans hb) (by decide),
      fun _ => ⟨rfl, rfl, rfl⟩⟩

/-- A successful `mapM` of the per-issue loop relates the lists pointwise. -/
theorem mapM_enrich_forall2 (env : Env) :
    ∀ (base outList : List AIssue),
      base.mapM (enrichIssue env) = Except.ok outList →
      List.Forall₂ (fun i0 i' => enrichIssue env i0 = Except.ok i')
        base outList := by
  intro base
  induction base with
  | nil =>
    intro outList h
    rw [List.mapM_nil] at h
    replace h := expure_eq_ok h
    subst h
    exact List.Forall₂.nil
  | cons i0 rest ih =>
    intro outList h
    rw [List.mapM_cons] at h
    obtain ⟨i', hi, h⟩ := exbind_eq_ok h
    obtain ⟨os, hos, h⟩ := exbind_eq_ok h
    replace h := expure_eq_ok h
    subst h
    exact List.Forall₂.cons hi (ih os hos)

/-- The base issue list that `get_json` resolves first (source lines
72-79): a singleton for a supplied issue number, the whole repository
otherwise. -/
def baseFetch (env : Env) (issue : Option Nat) : Except Str (List AIssue) :=
  match issue with
  | some n => (env.issue n).map (fun i => [i])
  | none => env.issues_all

theorem get_json_eq (env : Env) (issue : Option Nat) :
    get_json env issue =
      (baseFetch env issue >>= fun base => base.mapM (enrichIssue env)) := by
  cases issue <;> rfl

/-- C8 (amended): in every successful aggregation run — full repository or
a single issue, pull request or not — each output issue stands in the
frame relation `IssueFrame` to its fetched base: every fetched field
retained and only the enrichment data attached; each review changes only
by gaining `created_at := submitted_at`; each comment only by possibly
gaining `reactions_detailed`; each changed file only by gaining
`contents`. -/
theorem aggregation_frame
    (env : Env) (issue : Option Nat) (base outList : List AIssue)
    (hbase : baseFetch env issue = Except.ok base)
    (h : get_json env issue = Except.ok outList) :
    List.Forall₂ (IssueFrame env) base outList ∧
    outList.length = base.length ∧
    (∀ i0 i', enrichIssue env i0 = Except.ok i' → IssueFrame env i0 i') ∧
    (∀ v : Review, (reviewStamp v).submitted_at = v.submitted_at ∧
      (reviewStamp v).user = v.user ∧ (reviewStamp v).body = v.body ∧
      (reviewStamp v).created_at = some v.submitted_at) ∧
    (∀ c c' : IComment, enrichComment env c = Except.ok c' →
      c'.created_at = c.created_at ∧ c'.user = c.user ∧ c'.body = c.body ∧
      c'.reactions = c.reactions) ∧
    (∀ f f' : PullFile, enrichFile env f = Except.ok f' →
      f'.name = f.name ∧ f'.path = f.path ∧
      f'.contents_url = f.contents_url) := by
  rw [get_json_eq] at h
  obtain ⟨base', hbase', h⟩ := exbind_eq_ok h
  rw [hbase, Except.ok.injEq] at hbase'
  subst hbase'
  have hf2 := List.Forall₂.imp
    (fun i0 i' hone => enrichIssue_frame env i0 i' hone)
    (mapM_enrich_forall2 env base outList h)
  exact ⟨hf2, hf2.length_eq.symm, enrichIssue_frame env,
    fun v => ⟨rfl, rfl, rfl, rfl⟩, enrichComment_frame env,
    enrichFile_frame env⟩

/-- A full-repository aggregation of `cEnv` and a non-pull-request
single-issue aggregation of `cEnvPlain`, fully evaluated. -/
def cEnriched : AIssue :=
  { cAIssue with
    reactions := some [cReaction], comments := some [cCommentD],
    events := some [], reviews := some [reviewStamp cReview],
    review_comments := some [cRC], files := some [cFileD] }

def cEnrichedPlain : AIssue :=
  { cAIssuePlain with
    reactions := some [cReaction], comments := some [cCommentD],
    events := some [] }

theorem aggregation_frame_witness :
    List.Forall₂ (IssueFrame cEnv) [cAIssue] [cEnriched] ∧
    List.Forall₂ (IssueFrame cEnvPlain) [cAIssuePlain] [cEnrichedPlain] :=
  ⟨(aggregation_frame cEnv none [cAIssue] [cEnriched] rfl rfl).1,
   (aggregation_frame cEnvPlain (some 7) [cAIssuePlain] [cEnrichedPlain]
     rfl rfl).1⟩

/-- C8 counterexample: at a concrete environment, aggregation hands back
the changed file with a `contents` field it did not have when fetched — a
mutation of a fetched entity beyond the review-timestamp and
comment-reactions annotations that the claim allows. -/
theorem aggregation_modifies_fetched_files :
    get_json cEnv (some 7) =
      Except.ok [{ cAIssue with
        reactions := some [cReaction], comments := some [cCommentD],
        events := some [], reviews := some [reviewStamp cReview],
        review_comments := some [cRC], files := some [cFileD] }] ∧
    cFile.contents = none ∧
    cFileD.contents ≠ cFile.contents ∧
    cFileD.name = cFile.name ∧ cFileD.path = cFile.path ∧
    cFileD.contents_url = cFile.contents_url := by
  refine ⟨rfl, rfl, by simp [cFileD, cFile], rfl, rfl, rfl⟩
